import Mathlib

/-!
go-todo-cli: the task store, its persistence and the command dispatcher.

A shallow embedding of `src/todo.go`.

* Go `int` is embedded as `Int`.  The only arithmetic in the program is
  `tl.NextId += 1`, one increment per `AddTask` call on a counter that starts
  at 1, so a run from the empty store meets the 64-bit wrap-around only after
  2^63 calls of `AddTask`; the counter is taken as unbounded.  Where a store
  is arbitrary and its integers are printed and parsed, they are required to
  fit 64 bits (`Json.fitsStore`).
* Go `string` is embedded as `String`.
* `time.Time` is embedded as the RFC 3339 text that `encoding/json` reads and
  writes for it; `time.Now()` is an explicit argument `now`.
* The file system is explicit state: the content of every file, and for
  every path whether `os.WriteFile` can open it for writing (its directory
  exists and permits it).  Reads of a missing file fail the way `os.ReadFile`
  does; a write to a path that cannot be opened fails and changes nothing.  A
  write cut short after the file was opened (full disk) is not modelled.
* `encoding/json` is a parameter (`Codec`).  `jsonCodec` further down is a
  concrete instance for the `TodoList` schema, used to evaluate the
  definitions on concrete files.
* A method with a pointer receiver takes the store (and the file system) and
  returns the new ones next to its Go result.
-/

namespace Todo

/-! ## Data model (todo.go, lines 11-22) -/

/-- The embedding of `time.Time`: the RFC 3339 text of the instant. -/
abbrev Time := String

/-- The zero value of `time.Time` as `encoding/json` prints it. -/
def zeroTime : Time := "0001-01-01T00:00:00Z"

/-- Go `type Task struct`. -/
structure Task where
  ID : Int
  Title : String
  Completed : Bool
  Time : Time
deriving DecidableEq, Repr

/-- Go `type TodoList struct`. -/
structure TodoList where
  Tasks : List Task
  FilePath : String
  NextId : Int
deriving DecidableEq, Repr

/-! ## Environment: errors, file system, JSON codec -/

/-- Go `error` values the program can meet. -/
inductive Error where
  | notExist (path : String)
  | json (msg : String)
  | cannotWrite (path : String)
  | badNumber (input : String)
  | range (input : String)
deriving DecidableEq, Repr

deriving instance DecidableEq for Except

/-- The file system: the content of every existing file, and the paths
`os.WriteFile` can open for writing. -/
structure FS where
  file : String → Option String
  writable : String → Bool

/-- Go `os.Stat`, error part only (the `FileInfo` is discarded by the caller). -/
def Stat (fs : FS) (path : String) : Option Error :=
  match fs.file path with
  | none => some (Error.notExist path)
  | some _ => none

/-- Go `os.IsNotExist`. -/
def IsNotExist : Option Error → Bool
  | some (Error.notExist _) => true
  | _ => false

/-- Go `os.ReadFile`. -/
def ReadFile (fs : FS) (path : String) : Except Error String :=
  match fs.file path with
  | none => Except.error (Error.notExist path)
  | some data => Except.ok data

/-- Go `os.WriteFile`: when `path` can be opened for writing, the file is
created or truncated and then holds exactly `data`; when it cannot, the call
fails and no file changes. -/
def WriteFile (fs : FS) (path : String) (data : String) : FS × Option Error :=
  if fs.writable path then
    ({ fs with file := fun q => if q = path then some data else fs.file q }, none)
  else (fs, some (Error.cannotWrite path))

/-- The two `encoding/json` entry points the program calls, at type `*TodoList`.
`Unmarshal` returns the store it leaves behind together with its error. -/
structure Codec where
  MarshalIndent : TodoList → Except Error String
  Unmarshal : String → TodoList → TodoList × Option Error

/-! ## A concrete codec: `encoding/json` at type `TodoList`

`jsonCodec` writes what `json.MarshalIndent(tl, "", "  ")` writes for a
`TodoList` and reads JSON documents of that schema back.  The reader covers:
blanks between tokens; one top-level object (or `null`) whose keys are among
`tasks`, `filePath`, `nextId`, in any order, a repeated key overwriting; task
objects whose keys are among `id`, `title`, `completed`, `time`; strings with
the JSON escapes (`\u` escapes outside the surrogate range); integers without
fraction or exponent that fit in 64 bits; `true`, `false`, `null`.  On such a
document it leaves the store that `json.Unmarshal(data, tl)` leaves: keys that
are absent keep the field of `tl`, `null` resets `tasks` and leaves the other
fields alone, and every task starts from the zero `Task`.  On any other input
it reports an error and leaves the store as it was.
-/

namespace Json

/-- The double quote. -/
def dquote : Char := Char.ofNat 34

/-- The backslash. -/
def backslash : Char := Char.ofNat 92

/-- The opening brace. -/
def lbrace : Char := Char.ofNat 123

/-- The closing brace. -/
def rbrace : Char := Char.ofNat 125

/-- The lower-case hexadecimal digit of a number below sixteen. -/
def hexDigit (n : Nat) : Char :=
  if n < 10 then Char.ofNat (48 + n) else Char.ofNat (87 + n)

/-- The six characters of a `\u` escape. -/
def uEscape (n : Nat) : List Char :=
  [backslash, 'u', hexDigit (n / 4096 % 16), hexDigit (n / 256 % 16),
    hexDigit (n / 16 % 16), hexDigit (n % 16)]

/-- How the encoder writes one character of a string (HTML escaping on, as
`json.MarshalIndent` has it). -/
def escapeChar (ch : Char) : List Char :=
  if ch = dquote then [backslash, dquote]
  else if ch = backslash then [backslash, backslash]
  else if ch = '\n' then [backslash, 'n']
  else if ch = '\r' then [backslash, 'r']
  else if ch = '\t' then [backslash, 't']
  else if ch.toNat < 32 ∨ ch = '<' ∨ ch = '>' ∨ ch = '&' ∨ ch.toNat = 8232 ∨ ch.toNat = 8233 then
    uEscape ch.toNat
  else [ch]

/-- The characters of a string as a JSON string literal. -/
def quoteChars (s : String) : List Char :=
  dquote :: (s.toList.flatMap escapeChar ++ [dquote])

/-- A string as a JSON string literal. -/
def quote (s : String) : String :=
  String.mk (quoteChars s)

/-- One task, at the nesting depth it has inside the store. -/
def marshalTask (t : Task) : String :=
  "    \x7b\n" ++
  "      \"id\": " ++ toString t.ID ++ ",\n" ++
  "      \"title\": " ++ quote t.Title ++ ",\n" ++
  "      \"completed\": " ++ (if t.Completed then "true" else "false") ++ ",\n" ++
  "      \"time\": " ++ quote t.Time ++ "\n" ++
  "    \x7d"

/-- The elements of a non-empty slice of tasks, a comma and a line break
between two of them. -/
def marshalElements : List Task → String
  | [] => ""
  | [t] => marshalTask t
  | t :: rest => marshalTask t ++ ",\n" ++ marshalElements rest

/-- The slice of tasks. -/
def marshalTasks (ts : List Task) : String :=
  if ts.isEmpty then "[]"
  else "[\n" ++ marshalElements ts ++ "\n  ]"

/-- The model of `json.MarshalIndent(tl, "", "  ")`. -/
def MarshalIndent (tl : TodoList) : Except Error String :=
  Except.ok
    ("\x7b\n" ++
     "  \"tasks\": " ++ marshalTasks tl.Tasks ++ ",\n" ++
     "  \"filePath\": " ++ quote tl.FilePath ++ ",\n" ++
     "  \"nextId\": " ++ toString tl.NextId ++ "\n" ++
     "\x7d")

/-- Drops the blanks JSON allows between tokens. -/
def skipWs : List Char → List Char
  | [] => []
  | ch :: rest =>
    if ch = ' ' ∨ ch = '\t' ∨ ch = '\n' ∨ ch = '\r' then skipWs rest else ch :: rest

/-- The value of a hexadecimal digit. -/
def hexVal (ch : Char) : Option Nat :=
  if '0' ≤ ch ∧ ch ≤ '9' then some (ch.toNat - 48)
  else if 'a' ≤ ch ∧ ch ≤ 'f' then some (ch.toNat - 87)
  else if 'A' ≤ ch ∧ ch ≤ 'F' then some (ch.toNat - 55)
  else none

/-- The character a one-letter escape stands for. -/
def unescape (ch : Char) : Option Char :=
  if ch = dquote then some dquote
  else if ch = backslash then some backslash
  else if ch = '/' then some '/'
  else if ch = 'b' then some (Char.ofNat 8)
  else if ch = 'f' then some (Char.ofNat 12)
  else if ch = 'n' then some '\n'
  else if ch = 'r' then some '\r'
  else if ch = 't' then some '\t'
  else none

/-- The code point of a `\u` escape, given its four digits. -/
def hex4 (a b c d : Char) : Option Nat :=
  match hexVal a, hexVal b, hexVal c, hexVal d with
  | some x, some y, some z, some w =>
    let n := 4096 * x + 256 * y + 16 * z + w
    if 55296 ≤ n ∧ n < 57344 then none else some n
  | _, _, _, _ => none

/-- Reads a string literal after its opening quote: the decoded characters and
the input after the closing quote. -/
def stringBody : Nat → List Char → Option (List Char × List Char)
  | 0, _ => none
  | _ + 1, [] => none
  | fuel + 1, ch :: rest =>
    if ch = dquote then some ([], rest)
    else if ch = backslash then
      match rest with
      | [] => none
      | e :: rest1 =>
        if e = 'u' then
          match rest1 with
          | a :: b :: c :: d :: rest2 =>
            match hex4 a b c d with
            | some n => (stringBody fuel rest2).map (fun r => (Char.ofNat n :: r.1, r.2))
            | none => none
          | _ => none
        else
          match unescape e with
          | some x => (stringBody fuel rest1).map (fun r => (x :: r.1, r.2))
          | none => none
    else if ch.toNat < 32 then none
    else (stringBody fuel rest).map (fun r => (ch :: r.1, r.2))

/-- Reads a string literal. -/
def string (cs : List Char) : Option (String × List Char) :=
  match cs with
  | [] => none
  | ch :: rest =>
    if ch = dquote then (stringBody cs.length rest).map (fun r => (String.mk r.1, r.2))
    else none

/-- Strips a keyword off the front of the input. -/
def keyword : List Char → List Char → Option (List Char)
  | [], cs => some cs
  | _ :: _, [] => none
  | k :: ks, ch :: cs => if k = ch then keyword ks cs else none

/-- Reads the digits of an integer, the sign already read: a JSON number
without fraction or exponent, in the range of `int`. -/
def magnitude (negative : Bool) (body : List Char) : Option (Int × List Char) :=
  let ds := body.takeWhile Char.isDigit
  let rest := body.dropWhile Char.isDigit
  if ds.isEmpty then none
  else if 1 < ds.length ∧ ds.head? = some '0' then none
  else if rest.head? = some '.' ∨ rest.head? = some 'e' ∨ rest.head? = some 'E' then none
  else
    let n : Nat := ds.foldl (fun acc ch => 10 * acc + (ch.toNat - 48)) 0
    let v : Int := if negative then -(n : Int) else (n : Int)
    if v < -(2 : Int) ^ 63 ∨ v > (2 : Int) ^ 63 - 1 then none else some (v, rest)

/-- Reads an integer. -/
def number (cs : List Char) : Option (Int × List Char) :=
  if cs.head? = some '-' then magnitude true cs.tail else magnitude false cs

/-- Reads `true` or `false`. -/
def bool (cs : List Char) : Option (Bool × List Char) :=
  match keyword "true".toList cs with
  | some rest => some (true, rest)
  | none => (keyword "false".toList cs).map (fun rest => (false, rest))

/-- Reads a value into a field: `null` leaves the field as `onNull` says,
anything else goes through `read`. -/
def field {α β : Type} (read : List Char → Option (β × List Char)) (set : β → α) (onNull : α)
    (cs : List Char) : Option (α × List Char) :=
  match keyword "null".toList cs with
  | some rest => some (onNull, rest)
  | none => (read cs).map (fun r => (set r.1, r.2))

/-- Reads the members of an object after its opening brace, `member` storing
each value into the record by its key. -/
def members {α : Type} (member : α → String → List Char → Option (α × List Char)) :
    Nat → α → List Char → Option (α × List Char)
  | 0, _, _ => none
  | fuel + 1, a, cs =>
    match string cs with
    | none => none
    | some (key, cs1) =>
      match skipWs cs1 with
      | [] => none
      | colon :: cs2 =>
        if colon = ':' then
          match member a key (skipWs cs2) with
          | none => none
          | some (a1, cs3) =>
            match skipWs cs3 with
            | [] => none
            | sep :: cs4 =>
              if sep = ',' then members member fuel a1 (skipWs cs4)
              else if sep = rbrace then some (a1, cs4)
              else none
        else none

/-- Reads an object into a record. -/
def object {α : Type} (member : α → String → List Char → Option (α × List Char))
    (fuel : Nat) (a : α) (cs : List Char) : Option (α × List Char) :=
  match cs with
  | [] => none
  | ch :: cs1 =>
    if ch = lbrace then
      match skipWs cs1 with
      | [] => none
      | ch2 :: cs2 => if ch2 = rbrace then some (a, cs2) else members member fuel a (ch2 :: cs2)
    else none

/-- The zero value of `Task`, from which every element of `tasks` is decoded. -/
def zeroTask : Task := { ID := 0, Title := "", Completed := false, Time := zeroTime }

/-- Stores one member of a task object. -/
def taskMember (t : Task) (key : String) (cs : List Char) : Option (Task × List Char) :=
  if key = "id" then field number (fun v => { t with ID := v }) t cs
  else if key = "title" then field string (fun v => { t with Title := v }) t cs
  else if key = "completed" then field bool (fun v => { t with Completed := v }) t cs
  else if key = "time" then field string (fun v => { t with Time := v }) t cs
  else none

/-- Reads the elements of the `tasks` array after its opening bracket. -/
def elements (fuel : Nat) : Nat → List Char → Option (List Task × List Char)
  | 0, _ => none
  | n + 1, cs =>
    match object taskMember fuel zeroTask cs with
    | none => none
    | some (t, cs1) =>
      match skipWs cs1 with
      | [] => none
      | sep :: cs2 =>
        if sep = ',' then (elements fuel n (skipWs cs2)).map (fun r => (t :: r.1, r.2))
        else if sep = ']' then some ([t], cs2)
        else none

/-- Reads the `tasks` array. -/
def array (fuel : Nat) (cs : List Char) : Option (List Task × List Char) :=
  match cs with
  | [] => none
  | ch :: cs1 =>
    if ch = '[' then
      match skipWs cs1 with
      | [] => none
      | ch2 :: cs2 => if ch2 = ']' then some ([], cs2) else elements fuel fuel (ch2 :: cs2)
    else none

/-- Stores one member of the top-level object. -/
def storeMember (fuel : Nat) (tl : TodoList) (key : String) (cs : List Char) :
    Option (TodoList × List Char) :=
  if key = "tasks" then field (array fuel) (fun v => { tl with Tasks := v }) { tl with Tasks := [] } cs
  else if key = "filePath" then field string (fun v => { tl with FilePath := v }) tl cs
  else if key = "nextId" then field number (fun v => { tl with NextId := v }) tl cs
  else none

/-- The model of `json.Unmarshal(data, tl)`. -/
def Unmarshal (data : String) (tl : TodoList) : TodoList × Option Error :=
  let fuel := data.length
  let cs := skipWs data.toList
  match field (object (storeMember fuel) fuel tl) id tl cs with
  | some (tl1, rest) =>
    if (skipWs rest).isEmpty then (tl1, none) else (tl, some (Error.json "invalid character after top-level value"))
  | none => (tl, some (Error.json "cannot unmarshal"))

end Json

/-- The codec the program runs with. -/
def jsonCodec : Codec :=
  { MarshalIndent := Json.MarshalIndent, Unmarshal := Json.Unmarshal }

/-! ## The store (todo.go, lines 24-106) -/

/-- The literal `&TodoList{Tasks: []Task{}, FilePath: FilePath, NextId: 1}`. -/
def emptyTodoList (FilePath : String) : TodoList :=
  { Tasks := [], FilePath := FilePath, NextId := 1 }

/-- Go `func (tl *TodoList) Load() error`. -/
def Load (c : Codec) (fs : FS) (tl : TodoList) : TodoList × Option Error :=
  let err := Stat fs tl.FilePath
  if IsNotExist err then (tl, none)
  else
    match ReadFile fs tl.FilePath with
    | Except.error e => (tl, some e)
    | Except.ok data =>
      if data.utf8ByteSize == 0 then (tl, none)
      else c.Unmarshal data tl

/-- Go `func NewTodoList(FilePath string) *TodoList`; the error of `Load` is dropped. -/
def NewTodoList (c : Codec) (fs : FS) (FilePath : String) : TodoList :=
  (Load c fs (emptyTodoList FilePath)).1

/-- Go `func (tl *TodoList) Save() error`. -/
def Save (c : Codec) (fs : FS) (tl : TodoList) : FS × Option Error :=
  match c.MarshalIndent tl with
  | Except.error e => (fs, some e)
  | Except.ok data => WriteFile fs tl.FilePath data

/-- Go `func (tl *TodoList) AddTask(title string) Task`; the error of `Save` is
dropped, as line 61 drops it. -/
def AddTask (c : Codec) (fs : FS) (tl : TodoList) (title : String) (now : Time) :
    FS × TodoList × Task :=
  let task : Task := { ID := tl.NextId, Title := title, Completed := false, Time := now }
  let tl1 : TodoList := { tl with Tasks := tl.Tasks ++ [task] }
  let tl2 : TodoList := { tl1 with NextId := tl1.NextId + 1 }
  ((Save c fs tl2).1, tl2, task)

/-- Go `func (tl *TodoList) ListTasks(showCompleted bool) []Task`, the loop
`for _, task := range tl.Tasks` unrolled over the list. -/
def activeTasks : List Task → List Task
  | [] => []
  | task :: rest => if !task.Completed then task :: activeTasks rest else activeTasks rest

/-- Go `func (tl *TodoList) ListTasks(showCompleted bool) []Task`. -/
def ListTasks (tl : TodoList) (showCompleted : Bool) : List Task :=
  if showCompleted then tl.Tasks else activeTasks tl.Tasks

/-- The loop header shared by `CompleteTask` and `DeleteTask`:
`for i, task := range tl.Tasks { if task.ID == id { ... return true } }`,
giving the index `i` at which the body runs, if it does. -/
def firstIndex : List Task → Int → Option Nat
  | [], _ => none
  | task :: rest, id => if task.ID == id then some 0 else (firstIndex rest id).map (· + 1)

/-- The assignment `tl.Tasks[i].Completed = true`. -/
def setCompleted : List Task → Nat → List Task
  | [], _ => []
  | task :: rest, 0 => { task with Completed := true } :: rest
  | task :: rest, i + 1 => task :: setCompleted rest i

/-- Go `func (tl *TodoList) CompleteTask(taskId int) bool`; the error of `Save`
is dropped, as line 82 drops it. -/
def CompleteTask (c : Codec) (fs : FS) (tl : TodoList) (taskId : Int) : FS × TodoList × Bool :=
  match firstIndex tl.Tasks taskId with
  | some i =>
    let tl1 : TodoList := { tl with Tasks := setCompleted tl.Tasks i }
    ((Save c fs tl1).1, tl1, true)
  | none => (fs, tl, false)

/-- Go `func (tl *TodoList) DeleteTask(id int) bool`; the slice expression
`append(tl.Tasks[:i], tl.Tasks[i+1:]...)` is `take i ++ drop (i+1)`, and the
error of `Save` is dropped, as line 93 drops it. -/
def DeleteTask (c : Codec) (fs : FS) (tl : TodoList) (id : Int) : FS × TodoList × Bool :=
  match firstIndex tl.Tasks id with
  | some i =>
    let tl1 : TodoList := { tl with Tasks := tl.Tasks.take i ++ tl.Tasks.drop (i + 1) }
    ((Save c fs tl1).1, tl1, true)
  | none => (fs, tl, false)

/-! ## Sequences of calls on one store -/

/-- One call on the store. -/
inductive Op where
  | add (title : String) (now : Time)
  | list (showCompleted : Bool)
  | complete (taskId : Int)
  | delete (id : Int)
deriving DecidableEq, Repr

/-- What a call returns. -/
inductive Reply where
  | task (t : Task)
  | tasks (ts : List Task)
  | flag (b : Bool)
deriving DecidableEq, Repr

/-- The file system and the store, between two calls. -/
structure World where
  fs : FS
  tl : TodoList

/-- Performs one call. -/
def step (c : Codec) (w : World) : Op → World × Reply
  | Op.add title now =>
    let r := AddTask c w.fs w.tl title now
    ({ fs := r.1, tl := r.2.1 }, Reply.task r.2.2)
  | Op.list showCompleted => (w, Reply.tasks (ListTasks w.tl showCompleted))
  | Op.complete taskId =>
    let r := CompleteTask c w.fs w.tl taskId
    ({ fs := r.1, tl := r.2.1 }, Reply.flag r.2.2)
  | Op.delete id =>
    let r := DeleteTask c w.fs w.tl id
    ({ fs := r.1, tl := r.2.1 }, Reply.flag r.2.2)

/-- Performs the calls in order and collects what they return. -/
def run (c : Codec) (w : World) : List Op → World × List Reply
  | [] => (w, [])
  | op :: ops =>
    let r := step c w op
    let rs := run c r.1 ops
    (rs.1, r.2 :: rs.2)

/-- The `AddTask` calls of a sequence, in order. -/
def addCalls : List Op → List (String × Time)
  | [] => []
  | Op.add title now :: ops => (title, now) :: addCalls ops
  | _ :: ops => addCalls ops

/-- The tasks returned by the `AddTask` calls of a run, in order. -/
def addedTasks : List Reply → List Task
  | [] => []
  | Reply.task t :: rs => t :: addedTasks rs
  | _ :: rs => addedTasks rs

/-! ## The command dispatcher (todo.go, lines 108-188) -/

/-- Go `strconv.Atoi`: an optional sign, then one or more decimal digits, the
value within the range of a 64-bit `int`. -/
def Atoi (s : String) : Except Error Int :=
  let cs := s.toList
  let signed : Bool × List Char :=
    match cs with
    | '-' :: rest => (true, rest)
    | '+' :: rest => (false, rest)
    | _ => (false, cs)
  if signed.2.isEmpty || !signed.2.all Char.isDigit then Except.error (Error.badNumber s)
  else
    let n : Nat := signed.2.foldl (fun acc ch => 10 * acc + (ch.toNat - 48)) 0
    let v : Int := if signed.1 then -(n : Int) else (n : Int)
    if v < -(2 : Int) ^ 63 || v > (2 : Int) ^ 63 - 1 then Except.error (Error.range s)
    else Except.ok v

/-- The verb `%2d` of `fmt.Printf`: decimal, padded with blanks on the left to width two. -/
def fmt2d (n : Int) : String :=
  let s := toString n
  if s.length < 2 then " " ++ s else s

/-- One row of the table printed by `list`: the body of
`for _, task := range tasks` in `main`. -/
def tableRow (task : Task) : String :=
  let status := if task.Completed then "[✓]" else "[ ]"
  " " ++ fmt2d task.ID ++ " |   " ++ status ++ "  | " ++ task.Title ++ "\n"

/-- Go `func showAllCommands()`: what it prints. -/
def showAllCommands : String :=
  "Commands\n" ++
  "  todo add <task title>     Add a new task\n" ++
  "  todo list                 List active tasks\n" ++
  "  todo list --all           List all tasks including completed\n" ++
  "  todo complete <id>        Mark a task as completed\n" ++
  "  todo delete <id>          Delete a task\n" ++
  "  todo help                 Show available commands\n"

/-- How a run of `main` ends: it returns, or an index expression `os.Args[i]`
is out of range and the run-time aborts the program.  Both carry the file
system left behind and what was printed on standard output. -/
inductive Outcome where
  | returned (fs : FS) (stdout : String)
  | indexPanic (fs : FS) (stdout : String) (index : Nat) (length : Nat)

/-- The `complete` and `delete` arms of the switch in `main` after the length
check: they differ in the store method called and in the success message. -/
def idCommand (Args : List String) (fs : FS)
    (method : Int → FS × TodoList × Bool) (done : Int → String) : Outcome :=
  match Args[2]? with
  | none => Outcome.indexPanic fs "" 2 Args.length
  | some arg =>
    match Atoi arg with
    | Except.error _ => Outcome.returned fs "Error: Invalid task ID\n"
    | Except.ok id =>
      let r := method id
      if r.2.2 then Outcome.returned r.1 (done id)
      else Outcome.returned r.1 ("Task " ++ toString id ++ " not found\n")

/-- Go `func main()`, with `os.Args` and the clock as arguments. -/
def main (c : Codec) (fs : FS) (now : Time) (Args : List String) : Outcome :=
  let filePath := "./todo.json"
  let todoList := NewTodoList c fs filePath
  match Args[1]? with
  | none => Outcome.indexPanic fs "" 1 Args.length
  | some command =>
    if command = "add" then
      if Args.length < 3 then Outcome.returned fs "Error: Missing task title\n"
      else
        match Args[2]? with
        | none => Outcome.indexPanic fs "" 2 Args.length
        | some title =>
          let r := AddTask c fs todoList title now
          Outcome.returned r.1 ("Added task " ++ r.2.2.Title ++ "\n")
    else if command = "list" then
      let list (showCompleted : Bool) : Outcome :=
        let tasks := ListTasks todoList showCompleted
        if tasks.length = 0 then Outcome.returned fs "No tasks available\n"
        else
          Outcome.returned fs
            (tasks.foldl (fun out task => out ++ tableRow task)
              (" ID | Status | Title\n" ++ "-------------------------------------\n"))
      if Args.length > 2 then
        match Args[2]? with
        | none => Outcome.indexPanic fs "" 2 Args.length
        | some flag => list (if flag = "--all" then true else false)
      else list false
    else if command = "complete" then
      if Args.length < 3 then Outcome.returned fs "Error: Missing task ID\n"
      else
        idCommand Args fs (CompleteTask c fs todoList)
          (fun id => "Marked task " ++ toString id ++ " as completed\n")
    else if command = "delete" then
      if Args.length < 3 then Outcome.returned fs "Error: Missing task ID\n"
      else
        idCommand Args fs (DeleteTask c fs todoList)
          (fun id => "Deleted task " ++ toString id ++ "\n")
    else if command = "help" then Outcome.returned fs showAllCommands
    else Outcome.returned fs (command ++ " is not a valid command. See 'todo help'")

/-- Whether a run of `main` returned. -/
def Outcome.isReturned : Outcome → Bool
  | Outcome.returned _ _ => true
  | Outcome.indexPanic _ _ _ _ => false

/-- What a run of `main` printed on standard output. -/
def Outcome.stdout : Outcome → String
  | Outcome.returned _ out => out
  | Outcome.indexPanic _ out _ _ => out

/-- The file system a run of `main` leaves. -/
def Outcome.fs : Outcome → FS
  | Outcome.returned fs _ => fs
  | Outcome.indexPanic fs _ _ _ => fs

/-- The store invariant: ids pairwise distinct and all below `NextId`. -/
def WellNumbered (tl : TodoList) : Prop :=
  tl.Tasks.Pairwise (fun a b => a.ID ≠ b.ID) ∧ ∀ t ∈ tl.Tasks, t.ID < tl.NextId

/-! ## Concrete stores and files -/

/-- A store with one open task, as `todo add "buy milk"` leaves it. -/
def milkStore : TodoList :=
  { Tasks := [{ ID := 1, Title := "buy milk", Completed := false, Time := "2024-05-01T09:30:00Z" }],
    FilePath := "./todo.json", NextId := 2 }

/-- The document `Save` writes for `milkStore`. -/
def milkDocument : String :=
  "\x7b\n  \"tasks\": [\n    \x7b\n      \"id\": 1,\n      \"title\": \"buy milk\",\n" ++
  "      \"completed\": false,\n      \"time\": \"2024-05-01T09:30:00Z\"\n    \x7d\n  ],\n" ++
  "  \"filePath\": \"./todo.json\",\n  \"nextId\": 2\n\x7d"

/-- A store file whose `filePath` member names another file: the text
`{"tasks":[],"filePath":"elsewhere.json","nextId":1}`. -/
def foreignDocument : String :=
  "\x7b\"tasks\":[],\"filePath\":\"elsewhere.json\",\"nextId\":1\x7d"

/-- A store with a completed task and an open one. -/
def twoTasks : TodoList :=
  { Tasks := [{ ID := 1, Title := "buy milk", Completed := true, Time := "2024-05-01T09:30:00Z" },
      { ID := 2, Title := "walk dog", Completed := false, Time := "2024-05-01T09:31:00Z" }],
    FilePath := "./todo.json", NextId := 3 }

/-- The calls of the scenario of section 8 of the specification. -/
def scenario : List Op :=
  [Op.add "buy milk" "2024-05-01T09:30:00Z", Op.add "walk dog" "2024-05-01T09:31:00Z",
    Op.list false, Op.complete 1, Op.list false, Op.list true, Op.delete 1, Op.list true,
    Op.delete 1]

/-- The file system with one file, at `path`, every path writable. -/
def oneFile (path : String) (data : String) : FS :=
  { file := fun q => if q = path then some data else none, writable := fun _ => true }

/-- The file system with no file, every path writable. -/
def noFile : FS := { file := fun _ => none, writable := fun _ => true }

/-- A store file whose `filePath` member names a file in a directory that does
not exist: the text `{"filePath":"nodir/x.json"}`. -/
def strayDocument : String :=
  "\x7b\"filePath\":\"nodir/x.json\"\x7d"

/-- The file system with one file, at `path`, and no directory `nodir`: the
path `nodir/x.json` cannot be opened for writing. -/
def noDirectory (path : String) (data : String) : FS :=
  { file := fun q => if q = path then some data else none,
    writable := fun q => decide (q ≠ "nodir/x.json") }

/-! ## Shapes of documents, for the round trip of the JSON codec -/

namespace Json

/-- The value the readers give a run of decimal digits. -/
def digitsValue (acc : Nat) (l : List Char) : Nat :=
  l.foldl (fun acc ch => 10 * acc + (ch.toNat - 48)) acc

/-- A character that can follow a number in a document. -/
def endsNumber (rest : List Char) : Prop :=
  ∀ ch, rest.head? = some ch → ch.isDigit = false ∧ ch ≠ '.' ∧ ch ≠ 'e' ∧ ch ≠ 'E'

/-- The first character of a value that is not `null` and not a blank. -/
def startsValue (cs : List Char) : Prop :=
  ∃ a r, cs = a :: r ∧ a ≠ ' ' ∧ a ≠ '\t' ∧ a ≠ '\n' ∧ a ≠ '\r' ∧ a ≠ 'n'

/-- The characters of a task object with what follows it. -/
def taskObject (t : Task) (rest : List Char) : List Char :=
  lbrace :: '\n' :: ' ' :: ' ' :: ' ' :: ' ' :: ' ' :: ' ' :: (quoteChars "id" ++ ':' :: ' ' ::
    ((toString t.ID).data ++ ',' :: '\n' :: ' ' :: ' ' :: ' ' :: ' ' :: ' ' :: ' ' ::
    (quoteChars "title" ++ ':' :: ' ' ::
    (quoteChars t.Title ++ ',' :: '\n' :: ' ' :: ' ' :: ' ' :: ' ' :: ' ' :: ' ' ::
    (quoteChars "completed" ++ ':' :: ' ' ::
    ((if t.Completed then "true" else "false").data ++
      ',' :: '\n' :: ' ' :: ' ' :: ' ' :: ' ' :: ' ' :: ' ' ::
    (quoteChars "time" ++ ':' :: ' ' ::
    (quoteChars t.Time ++ '\n' :: ' ' :: ' ' :: ' ' :: ' ' :: rbrace :: rest))))))))

/-- Whether a value fits Go's 64-bit `int`. -/
def fitsInt (n : Int) : Prop := -(2 : Int) ^ 63 ≤ n ∧ n ≤ (2 : Int) ^ 63 - 1

/-- The characters that close the `tasks` array, with what follows. -/
def arrayClose (rest : List Char) : List Char := '\n' :: ' ' :: ' ' :: ']' :: rest

/-- The characters of the document for a store. -/
def storeObject (tl : TodoList) : List Char :=
  lbrace :: '\n' :: ' ' :: ' ' :: (quoteChars "tasks" ++ ':' :: ' ' ::
    ((marshalTasks tl.Tasks).data ++ ',' :: '\n' :: ' ' :: ' ' ::
    (quoteChars "filePath" ++ ':' :: ' ' ::
    (quoteChars tl.FilePath ++ ',' :: '\n' :: ' ' :: ' ' ::
    (quoteChars "nextId" ++ ':' :: ' ' ::
    ((toString tl.NextId).data ++ ['\n', rbrace]))))))

/-- Whether every integer of a store fits Go's `int`. -/
def fitsStore (tl : TodoList) : Prop :=
  fitsInt tl.NextId ∧ ∀ t ∈ tl.Tasks, fitsInt t.ID

instance (n : Int) : Decidable (fitsInt n) := by
  unfold fitsInt
  infer_instance

instance (tl : TodoList) : Decidable (fitsStore tl) := by
  unfold fitsStore
  infer_instance

end Json

/-! ## Lemmas on the scan loop -/

theorem firstIndex_eq_none {ts : List Task} {id : Int} :
    firstIndex ts id = none ↔ ∀ t ∈ ts, t.ID ≠ id := by
  induction ts with
  | nil => simp [firstIndex]
  | cons a rest ih =>
    by_cases h : a.ID = id
    · simp [firstIndex, h]
    · simp [firstIndex, h, ih]

theorem firstIndex_eq_some {ts : List Task} {id : Int} {i : Nat}
    (h : firstIndex ts id = some i) :
    ∃ pre t post, ts = pre ++ t :: post ∧ pre.length = i ∧ t.ID = id ∧
      ∀ x ∈ pre, x.ID ≠ id := by
  induction ts generalizing i with
  | nil => simp [firstIndex] at h
  | cons a rest ih =>
    by_cases ha : a.ID = id
    · simp [firstIndex, ha] at h
      exact ⟨[], a, rest, by simp, by simpa using h, ha, by simp⟩
    · simp only [firstIndex, beq_iff_eq, ha, if_false, Option.map_eq_some'] at h
      obtain ⟨j, hj, rfl⟩ := h
      obtain ⟨pre, t, post, h1, h2, h3, h4⟩ := ih hj
      refine ⟨a :: pre, t, post, by simp [h1], by simp [h2], h3, ?_⟩
      intro x hx
      rcases List.mem_cons.mp hx with rfl | hx
      · exact ha
      · exact h4 x hx

theorem firstIndex_isSome {ts : List Task} {id : Int} (h : ∃ t ∈ ts, t.ID = id) :
    ∃ i, firstIndex ts id = some i := by
  cases hi : firstIndex ts id with
  | some i => exact ⟨i, rfl⟩
  | none =>
    obtain ⟨t, ht, hid⟩ := h
    exact absurd hid (firstIndex_eq_none.mp hi t ht)

theorem setCompleted_append (pre : List Task) (t : Task) (post : List Task) :
    setCompleted (pre ++ t :: post) pre.length = pre ++ { t with Completed := true } :: post := by
  induction pre with
  | nil => simp [setCompleted]
  | cons a rest ih => simp [setCompleted, ih]

theorem activeTasks_eq_filter (ts : List Task) :
    activeTasks ts = ts.filter (fun t => !t.Completed) := by
  induction ts with
  | nil => rfl
  | cons a rest ih =>
    cases h : a.Completed <;> simp [activeTasks, List.filter, h, ih]

/-! ## The single operations -/

/-- C2.  `DeleteTask(id)`: when some task has the id, the call returns true and
removes the first task with that id, keeping every other task in place and in
order; when none has it, the call returns false and leaves the tasks alone.
`NextId` (and `FilePath`) are the same before and after in both cases. -/
theorem DeleteTask_removes_first_match (c : Codec) (fs : FS) (tl : TodoList) (id : Int) :
    ((∃ t ∈ tl.Tasks, t.ID = id) →
      (DeleteTask c fs tl id).2.2 = true ∧
      ∃ pre t post, tl.Tasks = pre ++ t :: post ∧ t.ID = id ∧ (∀ x ∈ pre, x.ID ≠ id) ∧
        (DeleteTask c fs tl id).2.1.Tasks = pre ++ post) ∧
    ((∀ t ∈ tl.Tasks, t.ID ≠ id) →
      (DeleteTask c fs tl id).2.2 = false ∧ (DeleteTask c fs tl id).2.1.Tasks = tl.Tasks) ∧
    (DeleteTask c fs tl id).2.1.NextId = tl.NextId ∧
    (DeleteTask c fs tl id).2.1.FilePath = tl.FilePath := by
  refine ⟨?_, ?_, ?_, ?_⟩
  · intro h
    obtain ⟨i, hi⟩ := firstIndex_isSome h
    obtain ⟨pre, t, post, h1, h2, h3, h4⟩ := firstIndex_eq_some hi
    refine ⟨by simp [DeleteTask, hi], pre, t, post, h1, h3, h4, ?_⟩
    simp only [DeleteTask, hi]
    subst h2
    rw [h1]
    simp
  · intro h
    have hi := firstIndex_eq_none.mpr h
    simp [DeleteTask, hi]
  · cases hi : firstIndex tl.Tasks id <;> simp [DeleteTask, hi]
  · cases hi : firstIndex tl.Tasks id <;> simp [DeleteTask, hi]

/-- C3.  `CompleteTask(id)`: when no task has the id, the call returns false
and leaves the tasks alone; when one has it, the call returns true and the
tasks are the same sequence except that the first task with that id has
`Completed = true`, its `ID`, `Title` and `Time` kept.  `NextId` (and
`FilePath`) are the same before and after. -/
theorem CompleteTask_sets_only_completed (c : Codec) (fs : FS) (tl : TodoList) (id : Int) :
    ((∀ t ∈ tl.Tasks, t.ID ≠ id) →
      (CompleteTask c fs tl id).2.2 = false ∧ (CompleteTask c fs tl id).2.1.Tasks = tl.Tasks) ∧
    ((∃ t ∈ tl.Tasks, t.ID = id) →
      (CompleteTask c fs tl id).2.2 = true ∧
      (CompleteTask c fs tl id).2.1.Tasks.length = tl.Tasks.length ∧
      ∃ pre t post, tl.Tasks = pre ++ t :: post ∧ t.ID = id ∧ (∀ x ∈ pre, x.ID ≠ id) ∧
        (CompleteTask c fs tl id).2.1.Tasks =
          pre ++ { ID := t.ID, Title := t.Title, Completed := true, Time := t.Time } :: post) ∧
    (CompleteTask c fs tl id).2.1.NextId = tl.NextId ∧
    (CompleteTask c fs tl id).2.1.FilePath = tl.FilePath := by
  refine ⟨?_, ?_, ?_, ?_⟩
  · intro h
    have hi := firstIndex_eq_none.mpr h
    simp [CompleteTask, hi]
  · intro h
    obtain ⟨i, hi⟩ := firstIndex_isSome h
    obtain ⟨pre, t, post, h1, h2, h3, h4⟩ := firstIndex_eq_some hi
    subst h2
    have hset : (CompleteTask c fs tl id).2.1.Tasks =
        pre ++ { ID := t.ID, Title := t.Title, Completed := true, Time := t.Time } :: post := by
      simp only [CompleteTask, hi]
      rw [h1, setCompleted_append]
    refine ⟨by simp [CompleteTask, hi], ?_, pre, t, post, h1, h3, h4, hset⟩
    rw [hset, h1]
    simp
  · cases hi : firstIndex tl.Tasks id <;> simp [CompleteTask, hi]
  · cases hi : firstIndex tl.Tasks id <;> simp [CompleteTask, hi]

/-- C4.  `ListTasks(false)` is the subsequence of the tasks with
`Completed = false`, in stored order (a sublist that holds exactly the tasks
passing the filter); `ListTasks(true)` is the stored sequence; and as a call on
the store `ListTasks` leaves the store and the file system as they were. -/
theorem ListTasks_filters_active (c : Codec) (w : World) (tl : TodoList) (b : Bool) :
    ListTasks tl false = tl.Tasks.filter (fun t => t.Completed = false) ∧
    (ListTasks tl false).Sublist tl.Tasks ∧
    (∀ t, t ∈ ListTasks tl false ↔ t ∈ tl.Tasks ∧ t.Completed = false) ∧
    ((∀ t ∈ tl.Tasks, t.Completed = true) → ListTasks tl false = []) ∧
    ListTasks tl true = tl.Tasks ∧
    (step c w (Op.list b)).1.tl = w.tl ∧ (step c w (Op.list b)).1.fs = w.fs ∧
    (step c w (Op.list b)).2 = Reply.tasks (ListTasks w.tl b) := by
  have hf : ListTasks tl false = tl.Tasks.filter (fun t => t.Completed = false) := by
    simp only [ListTasks, activeTasks_eq_filter]
    simp
  refine ⟨hf, ?_, ?_, ?_, by simp [ListTasks], rfl, rfl, rfl⟩
  · rw [hf]; exact List.filter_sublist _
  · intro t; rw [hf]; simp
  · intro h; rw [hf]; simpa using h

theorem Load_absent_or_empty (c : Codec) (fs : FS) (tl : TodoList)
    (h : fs.file tl.FilePath = none ∨ fs.file tl.FilePath = some "") :
    Load c fs tl = (tl, none) := by
  rcases h with h | h
  · simp [Load, Stat, IsNotExist, h]
  · simp [Load, Stat, IsNotExist, ReadFile, h, String.utf8ByteSize, String.utf8ByteSize.go]

/-- C6.  Loading from a path with no file, or with a file of zero bytes: `Load`
reports no error and `NewTodoList` gives the empty default store for that
path, the same in both cases, whatever the codec. -/
theorem NewTodoList_absent_or_empty (c : Codec) (fs : FS) (p : String)
    (h : fs.file p = none ∨ fs.file p = some "") :
    (Load c fs (emptyTodoList p)).2 = none ∧
    NewTodoList c fs p = { Tasks := [], FilePath := p, NextId := 1 } := by
  have hl := Load_absent_or_empty c fs (emptyTodoList p) h
  exact ⟨by rw [hl], by simp only [NewTodoList, hl]; rfl⟩

/-! ## Frame lemmas for one call -/

theorem AddTask_tl (c : Codec) (fs : FS) (tl : TodoList) (title : String) (now : Time) :
    (AddTask c fs tl title now).2.1 =
      { Tasks := tl.Tasks ++ [{ ID := tl.NextId, Title := title, Completed := false, Time := now }],
        FilePath := tl.FilePath, NextId := tl.NextId + 1 } := rfl

theorem AddTask_task (c : Codec) (fs : FS) (tl : TodoList) (title : String) (now : Time) :
    (AddTask c fs tl title now).2.2 =
      { ID := tl.NextId, Title := title, Completed := false, Time := now } := rfl

theorem setCompleted_map_ID (ts : List Task) (i : Nat) :
    (setCompleted ts i).map Task.ID = ts.map Task.ID := by
  induction ts generalizing i with
  | nil => rfl
  | cons a rest ih =>
    cases i with
    | zero => rfl
    | succ j => simp [setCompleted, ih]

theorem step_NextId_le (c : Codec) (w : World) (op : Op) :
    w.tl.NextId ≤ (step c w op).1.tl.NextId := by
  cases op with
  | add title now => simp [step, AddTask_tl]
  | list b => simp [step]
  | complete id =>
    simp only [step, CompleteTask]
    cases firstIndex w.tl.Tasks id <;> simp
  | delete id =>
    simp only [step, DeleteTask]
    cases firstIndex w.tl.Tasks id <;> simp

theorem step_NextId_of_not_add (c : Codec) (w : World) (op : Op)
    (h : ∀ title now, op ≠ Op.add title now) :
    (step c w op).1.tl.NextId = w.tl.NextId := by
  cases op with
  | add title now => exact absurd rfl (h title now)
  | list b => simp [step]
  | complete id =>
    simp only [step, CompleteTask]
    cases firstIndex w.tl.Tasks id <;> simp
  | delete id =>
    simp only [step, DeleteTask]
    cases firstIndex w.tl.Tasks id <;> simp

theorem step_FilePath (c : Codec) (w : World) (op : Op) :
    (step c w op).1.tl.FilePath = w.tl.FilePath := by
  cases op with
  | add title now => simp [step, AddTask_tl]
  | list b => simp [step]
  | complete id =>
    simp only [step, CompleteTask]
    cases firstIndex w.tl.Tasks id <;> simp
  | delete id =>
    simp only [step, DeleteTask]
    cases firstIndex w.tl.Tasks id <;> simp

theorem run_NextId_le (c : Codec) (w : World) (ops : List Op) :
    w.tl.NextId ≤ (run c w ops).1.tl.NextId := by
  induction ops generalizing w with
  | nil => simp [run]
  | cons op ops ih =>
    simp only [run]
    exact le_trans (step_NextId_le c w op) (ih _)

theorem run_FilePath (c : Codec) (w : World) (ops : List Op) :
    (run c w ops).1.tl.FilePath = w.tl.FilePath := by
  induction ops generalizing w with
  | nil => simp [run]
  | cons op ops ih =>
    simp only [run]
    rw [ih, step_FilePath]

theorem pairwise_ID_iff (ts : List Task) :
    ts.Pairwise (fun a b => a.ID ≠ b.ID) ↔ (ts.map Task.ID).Pairwise (fun a b => a ≠ b) := by
  rw [List.pairwise_map]

theorem step_WellNumbered (c : Codec) (w : World) (op : Op) (h : WellNumbered w.tl) :
    WellNumbered (step c w op).1.tl := by
  obtain ⟨hd, hlt⟩ := h
  cases op with
  | add title now =>
    simp only [step, AddTask_tl]
    constructor
    · rw [List.pairwise_append]
      refine ⟨hd, by simp, ?_⟩
      intro a ha b hb
      simp only [List.mem_singleton] at hb
      subst hb
      exact ne_of_lt (hlt a ha)
    · intro t ht
      rcases List.mem_append.mp ht with ht | ht
      · exact lt_trans (hlt t ht) (by simp)
      · simp only [List.mem_singleton] at ht
        subst ht
        simp
  | list b => exact ⟨hd, hlt⟩
  | complete id =>
    simp only [step, CompleteTask]
    cases hi : firstIndex w.tl.Tasks id with
    | none => exact ⟨hd, hlt⟩
    | some i =>
      constructor
      · show (setCompleted w.tl.Tasks i).Pairwise _
        rw [pairwise_ID_iff, setCompleted_map_ID, ← pairwise_ID_iff]
        exact hd
      · intro t ht
        have hmem : t.ID ∈ (setCompleted w.tl.Tasks i).map Task.ID := List.mem_map_of_mem _ ht
        rw [setCompleted_map_ID] at hmem
        obtain ⟨u, hu, hid⟩ := List.mem_map.mp hmem
        show t.ID < w.tl.NextId
        rw [← hid]
        exact hlt u hu
  | delete id =>
    simp only [step, DeleteTask]
    cases hi : firstIndex w.tl.Tasks id with
    | none => exact ⟨hd, hlt⟩
    | some i =>
      have hsub : (w.tl.Tasks.take i ++ w.tl.Tasks.drop (i + 1)).Sublist w.tl.Tasks := by
        have h1 : (w.tl.Tasks.take i ++ w.tl.Tasks.drop (i + 1)).Sublist
            (w.tl.Tasks.take i ++ w.tl.Tasks.drop i) :=
          List.Sublist.append (List.Sublist.refl _)
            (by rw [← List.drop_drop]; exact List.drop_sublist _ _)
        simpa using h1
      exact ⟨hd.sublist hsub, fun t ht => hlt t (hsub.subset ht)⟩

theorem run_WellNumbered (c : Codec) (w : World) (ops : List Op) (h : WellNumbered w.tl) :
    WellNumbered (run c w ops).1.tl := by
  induction ops generalizing w with
  | nil => simpa [run] using h
  | cons op ops ih =>
    simp only [run]
    exact ih _ (step_WellNumbered c w op h)

theorem run_added_getElem (c : Codec) (w : World) (ops : List Op) (k : Nat) :
    (addedTasks (run c w ops).2)[k]? =
      ((addCalls ops)[k]?).map (fun call =>
        { ID := w.tl.NextId + k, Title := call.1, Completed := false, Time := call.2 }) := by
  induction ops generalizing w k with
  | nil => simp [run, addedTasks, addCalls]
  | cons op ops ih =>
    cases op with
    | add title now =>
      cases k with
      | zero => simp [run, step, addedTasks, addCalls, AddTask_task]
      | succ j =>
        simp only [run, step, addedTasks, addCalls, List.getElem?_cons_succ]
        rw [ih]
        simp only [AddTask_tl]
        congr 1
        funext call
        simp only [Task.mk.injEq, and_true, true_and]
        push_cast
        ring
    | list b => simpa [run, step, addedTasks, addCalls] using ih w k
    | complete id =>
      simp only [run, addedTasks, addCalls]
      rw [ih, step_NextId_of_not_add c w _ (by intro _ _ h; cases h)]
    | delete id =>
      simp only [run, addedTasks, addCalls]
      rw [ih, step_NextId_of_not_add c w _ (by intro _ _ h; cases h)]

theorem run_added_lt (c : Codec) (w : World) (ops : List Op) :
    ∀ t ∈ addedTasks (run c w ops).2, t.ID < (run c w ops).1.tl.NextId := by
  induction ops generalizing w with
  | nil => simp [run, addedTasks]
  | cons op ops ih =>
    cases op with
    | add title now =>
      intro t ht
      simp only [run, step, addedTasks, List.mem_cons] at ht ⊢
      rcases ht with rfl | ht
      · refine lt_of_lt_of_le ?_ (run_NextId_le c _ ops)
        simp [AddTask_tl, AddTask_task]
      · exact ih _ t ht
    | list b => simpa [run, step, addedTasks] using ih w
    | complete id => simpa [run, step, addedTasks] using ih _
    | delete id => simpa [run, step, addedTasks] using ih _

/-! ## Runs from the empty store -/

/-- C1.  From the empty store, in any sequence of calls, the k-th `AddTask`
call (counting from one; `k` below counts from zero) returns the task with id
`k`, the title it was given and `Completed = false`, and there are as many
returned tasks as `AddTask` calls: completions and deletions in between do not
disturb the numbering. -/
theorem AddTask_ids_count_up (c : Codec) (fs : FS) (p : String) (ops : List Op) (k : Nat) :
    (addedTasks (run c { fs := fs, tl := emptyTodoList p } ops).2)[k]? =
      ((addCalls ops)[k]?).map (fun call =>
        { ID := (k : Int) + 1, Title := call.1, Completed := false, Time := call.2 }) := by
  rw [run_added_getElem]
  congr 1
  funext call
  simp only [emptyTodoList, Task.mk.injEq, and_true, true_and]
  ring

/-- C7.  In every state reached from the empty store by a sequence of calls the
ids of the stored tasks are pairwise distinct, `NextId` is above every stored
id and above every id an `AddTask` call of the run returned; and no further
call made in such a state lowers `NextId`. -/
theorem reachable_ids_distinct_below_NextId (c : Codec) (fs : FS) (p : String) (ops : List Op) :
    (run c { fs := fs, tl := emptyTodoList p } ops).1.tl.Tasks.Pairwise (fun a b => a.ID ≠ b.ID) ∧
    (∀ t ∈ (run c { fs := fs, tl := emptyTodoList p } ops).1.tl.Tasks,
      t.ID < (run c { fs := fs, tl := emptyTodoList p } ops).1.tl.NextId) ∧
    (∀ t ∈ addedTasks (run c { fs := fs, tl := emptyTodoList p } ops).2,
      t.ID < (run c { fs := fs, tl := emptyTodoList p } ops).1.tl.NextId) ∧
    (∀ op : Op, (run c { fs := fs, tl := emptyTodoList p } ops).1.tl.NextId ≤
      (step c (run c { fs := fs, tl := emptyTodoList p } ops).1 op).1.tl.NextId) := by
  have h0 : WellNumbered (emptyTodoList p) := by simp [WellNumbered, emptyTodoList]
  have h := run_WellNumbered c { fs := fs, tl := emptyTodoList p } ops h0
  exact ⟨h.1, h.2, run_added_lt c _ ops, fun op => step_NextId_le c _ op⟩

/-! ## The JSON codec reads back what it writes -/

namespace Json

theorem digitChar_isDigit (k : Nat) (h : k < 10) :
    (Nat.digitChar k).isDigit = true ∧ (Nat.digitChar k).toNat - 48 = k ∧
      (Nat.digitChar k = '0' ↔ k = 0) := by
  interval_cases k <;> decide

theorem toDigitsCore_spec (fuel n : Nat) (ds : List Char) (h : n < fuel) :
    ∃ l, Nat.toDigitsCore 10 fuel n ds = l ++ ds ∧ (∀ ch ∈ l, ch.isDigit = true) ∧
      l ≠ [] ∧ (∀ acc, digitsValue acc l = acc * 10 ^ l.length + n) ∧
      (n = 0 → l = ['0']) ∧ (0 < n → l.head? ≠ some '0') := by
  induction fuel generalizing n ds with
  | zero => omega
  | succ fuel ih =>
    have hd := digitChar_isDigit (n % 10) (Nat.mod_lt _ (by decide))
    simp only [Nat.toDigitsCore]
    by_cases h0 : n / 10 = 0
    · have hn : n < 10 := by omega
      have hmod : n % 10 = n := Nat.mod_eq_of_lt hn
      rw [hmod] at hd
      refine ⟨[Nat.digitChar n], by simp [h0, hmod], by simpa using hd.1, by simp, ?_, ?_, ?_⟩
      · intro acc
        simp [digitsValue, hd.2.1]; ring
      · intro hz; subst hz; rfl
      · intro hpos
        simp only [List.head?_cons, ne_eq, Option.some.injEq]
        rw [hd.2.2]; omega
    · obtain ⟨l, h1, h2, h3, h4, _, h6⟩ := ih (n / 10) (Nat.digitChar (n % 10) :: ds) (by omega)
      refine ⟨l ++ [Nat.digitChar (n % 10)], by simp [h0, h1], ?_, by simp, ?_, ?_, ?_⟩
      · intro ch hch
        rcases List.mem_append.mp hch with hch | hch
        · exact h2 ch hch
        · simp only [List.mem_singleton] at hch; subst hch; exact hd.1
      · intro acc
        have := h4 acc
        simp only [digitsValue] at this ⊢
        simp only [List.foldl_append, this, List.foldl_cons, List.foldl_nil, hd.2.1,
          List.length_append, List.length_singleton]
        have := Nat.div_add_mod n 10
        rw [pow_succ]
        nlinarith [Nat.div_add_mod n 10]
      · intro hz; omega
      · intro _
        cases l with
        | nil => exact absurd rfl h3
        | cons a rest =>
          have := h6 (by omega)
          simpa using this

theorem takeWhile_append_stop {p : Char → Bool} (l rest : List Char)
    (hl : ∀ ch ∈ l, p ch = true) (hrest : ∀ ch, rest.head? = some ch → p ch = false) :
    (l ++ rest).takeWhile p = l ∧ (l ++ rest).dropWhile p = rest := by
  induction l with
  | nil =>
    cases rest with
    | nil => simp
    | cons a r => simp [List.takeWhile, List.dropWhile, hrest a rfl]
  | cons a l ih =>
    have ha := hl a (List.mem_cons_self _ _)
    have := ih (fun ch hch => hl ch (List.mem_cons_of_mem _ hch))
    simp [List.takeWhile, List.dropWhile, ha, this]

theorem natural_digits (m : Nat) :
    ∃ l, (toString m).toList = l ∧ (∀ ch ∈ l, ch.isDigit = true) ∧ l ≠ [] ∧
      digitsValue 0 l = m ∧ ¬ (1 < l.length ∧ l.head? = some '0') := by
  obtain ⟨l, h1, h2, h3, h4, h5, h6⟩ := toDigitsCore_spec (m + 1) m [] (by omega)
  refine ⟨l, ?_, h2, h3, by simpa using h4 0, ?_⟩
  · show (Nat.repr m).toList = l
    simp [Nat.repr, Nat.toDigits, h1, List.asString]
  · rintro ⟨hlen, hhead⟩
    rcases Nat.eq_zero_or_pos m with hz | hpos
    · rw [h5 hz] at hlen; simp at hlen
    · exact h6 hpos hhead

theorem magnitude_digits (negative : Bool) (l rest : List Char) (m : Nat)
    (h2 : ∀ ch ∈ l, ch.isDigit = true) (h3 : l ≠ []) (h4 : digitsValue 0 l = m)
    (h5 : ¬ (1 < l.length ∧ l.head? = some '0')) (hrest : endsNumber rest)
    (hr : ¬ ((if negative then -(m : Int) else (m : Int)) < -(2 : Int) ^ 63 ∨
        (if negative then -(m : Int) else (m : Int)) > (2 : Int) ^ 63 - 1)) :
    magnitude negative (l ++ rest) = some (if negative then -(m : Int) else (m : Int), rest) := by
  have hstop : ∀ ch, rest.head? = some ch → Char.isDigit ch = false := fun ch h => (hrest ch h).1
  have htail : ¬ (rest.head? = some '.' ∨ rest.head? = some 'e' ∨ rest.head? = some 'E') := by
    rintro (h | h | h)
    · exact (hrest _ h).2.1 rfl
    · exact (hrest _ h).2.2.1 rfl
    · exact (hrest _ h).2.2.2 rfl
  have htd := takeWhile_append_stop l rest h2 hstop
  have hl : ¬ (l.isEmpty = true) := by
    cases l with
    | nil => exact absurd rfl h3
    | cons a r => simp
  simp only [digitsValue] at h4
  simp only [magnitude, htd.1, htd.2, h4]
  rw [if_neg hl, if_neg h5, if_neg htail, if_neg hr]

theorem number_toString (n : Int) (rest : List Char)
    (hr : -(2 : Int) ^ 63 ≤ n ∧ n ≤ (2 : Int) ^ 63 - 1) (hrest : endsNumber rest) :
    number ((toString n).toList ++ rest) = some (n, rest) := by
  cases n with
  | ofNat m =>
    obtain ⟨l, h1, h2, h3, h4, h5⟩ := natural_digits m
    have hs : (toString (Int.ofNat m)).toList = l := h1
    rw [hs]
    obtain ⟨a, l1, rfl⟩ := List.exists_cons_of_ne_nil h3
    have ha : a ≠ '-' := by
      intro h
      have := h2 a (List.mem_cons_self _ _)
      rw [h] at this
      exact absurd this (by decide)
    have hhead : ¬ ((a :: l1 ++ rest).head? = some '-') := by simp [ha]
    have hrange : ¬ ((if false then -(m : Int) else (m : Int)) < -(2 : Int) ^ 63 ∨
        (if false then -(m : Int) else (m : Int)) > (2 : Int) ^ 63 - 1) := by
      have := hr.2
      simp only [Int.ofNat_eq_coe] at this
      simp only [Bool.false_eq_true, if_false]
      omega
    unfold number
    rw [if_neg hhead, magnitude_digits false (a :: l1) rest m h2 h3 h4 h5 hrest hrange]
    rfl
  | negSucc m =>
    obtain ⟨l, h1, h2, h3, h4, h5⟩ := natural_digits (m + 1)
    have hs : (toString (Int.negSucc m)).toList = '-' :: l := by
      show ("-" ++ toString (m + 1)).toList = _
      rw [← h1]
      simp
    rw [hs]
    have hhead : ('-' :: l ++ rest).head? = some '-' := rfl
    have hrange : ¬ ((if true then -((m + 1 : Nat) : Int) else ((m + 1 : Nat) : Int))
          < -(2 : Int) ^ 63 ∨
        (if true then -((m + 1 : Nat) : Int) else ((m + 1 : Nat) : Int)) > (2 : Int) ^ 63 - 1) := by
      have := hr.1
      rw [Int.negSucc_eq] at this
      simp only [if_true]
      push_cast
      omega
    unfold number
    rw [if_pos hhead]
    show magnitude true (l ++ rest) = _
    rw [magnitude_digits true l rest (m + 1) h2 h3 h4 h5 hrest hrange]
    simp [Int.negSucc_eq]

theorem hexVal_hexDigit (k : Nat) (h : k < 16) : hexVal (hexDigit k) = some k := by
  interval_cases k <;> decide

theorem hex4_uEscape (n : Nat) (h : n < 55296) :
    hex4 (hexDigit (n / 4096 % 16)) (hexDigit (n / 256 % 16)) (hexDigit (n / 16 % 16))
      (hexDigit (n % 16)) = some n := by
  unfold hex4
  rw [hexVal_hexDigit _ (Nat.mod_lt _ (by decide)), hexVal_hexDigit _ (Nat.mod_lt _ (by decide)),
    hexVal_hexDigit _ (Nat.mod_lt _ (by decide)), hexVal_hexDigit _ (Nat.mod_lt _ (by decide))]
  have hsum : 4096 * (n / 4096 % 16) + 256 * (n / 256 % 16) + 16 * (n / 16 % 16) + n % 16 = n := by
    omega
  simp only [hsum]
  rw [if_neg (by omega)]

theorem stringBody_escapeChar (fuel : Nat) (ch : Char) (tail : List Char) :
    stringBody (fuel + 1) (escapeChar ch ++ tail) =
      (stringBody fuel tail).map (fun r => (ch :: r.1, r.2)) := by
  have hqb : dquote ≠ backslash := by decide
  have hbq : backslash ≠ dquote := by decide
  have hbu : backslash ≠ 'u' := by decide
  have hqu : dquote ≠ 'u' := by decide
  unfold escapeChar
  split_ifs with h1 h2 h3 h4 h5 h6
  · subst h1
    simp [stringBody, unescape, hbq, hqu]
  · subst h2
    simp [stringBody, unescape, hbq, hbu]
  · subst h3
    simp [stringBody, unescape, hbq, dquote, backslash]
  · subst h4
    simp [stringBody, unescape, hbq, dquote, backslash]
  · subst h5
    simp [stringBody, unescape, hbq, dquote, backslash]
  · have hn : ch.toNat < 55296 := by
      rcases h6 with h | h | h | h | h | h
      · omega
      · subst h; decide
      · subst h; decide
      · subst h; decide
      · omega
      · omega
    show stringBody (fuel + 1) (backslash :: 'u' :: hexDigit (ch.toNat / 4096 % 16) ::
      hexDigit (ch.toNat / 256 % 16) :: hexDigit (ch.toNat / 16 % 16) ::
      hexDigit (ch.toNat % 16) :: tail) = _
    simp only [stringBody, hbq, if_false, if_true, hex4_uEscape _ hn, Char.ofNat_toNat]
  · have hlt : ¬ ch.toNat < 32 := fun h => h6 (Or.inl h)
    simp [stringBody, h1, h2, hlt]

theorem stringBody_flatMap (l rest : List Char) (fuel : Nat) (h : l.length < fuel) :
    stringBody fuel (l.flatMap escapeChar ++ dquote :: rest) = some (l, rest) := by
  induction l generalizing fuel with
  | nil =>
    obtain ⟨f, rfl⟩ : ∃ f, fuel = f + 1 := ⟨fuel - 1, by simp at h; omega⟩
    simp [stringBody]
  | cons ch l ih =>
    obtain ⟨f, rfl⟩ : ∃ f, fuel = f + 1 := ⟨fuel - 1, by simp at h; omega⟩
    simp only [List.flatMap_cons, List.append_assoc]
    rw [stringBody_escapeChar, ih f (by simp at h; omega)]
    rfl

theorem escapeChar_length_pos (ch : Char) : 0 < (escapeChar ch).length := by
  unfold escapeChar
  split_ifs <;> simp [uEscape]

theorem length_le_flatMap_escapeChar (l : List Char) :
    l.length ≤ (l.flatMap escapeChar).length := by
  induction l with
  | nil => simp
  | cons ch l ih =>
    have := escapeChar_length_pos ch
    simp only [List.flatMap_cons, List.length_append, List.length_cons]
    omega

theorem string_quote (s : String) (rest : List Char) :
    string (quoteChars s ++ rest) = some (s, rest) := by
  have hlen := length_le_flatMap_escapeChar s.toList
  simp only [quoteChars, String.toList, string, List.cons_append, List.append_assoc, if_true,
    List.singleton_append]
  rw [stringBody_flatMap]
  · rfl
  · simp only [List.length_cons, List.length_append]
    simp only [String.toList] at hlen
    omega

theorem quote_data (s : String) : (quote s).data = quoteChars s := rfl

theorem skipWs_startsValue {cs : List Char} (h : startsValue cs) : skipWs cs = cs := by
  obtain ⟨a, r, rfl, h1, h2, h3, h4, _⟩ := h
  simp [skipWs, h1, h2, h3, h4]

theorem keyword_null_startsValue {cs : List Char} (h : startsValue cs) :
    keyword "null".toList cs = none := by
  obtain ⟨a, r, rfl, _, _, _, _, h5⟩ := h
  have : ¬ ('n' = a) := fun e => h5 e.symm
  simp [keyword, this]

theorem startsValue_quote (s : String) (rest : List Char) :
    startsValue (quoteChars s ++ rest) :=
  ⟨dquote, _, rfl, by decide, by decide, by decide, by decide, by decide⟩

theorem startsValue_toString (n : Int) (rest : List Char) :
    startsValue ((toString n).data ++ rest) := by
  cases n with
  | ofNat m =>
    obtain ⟨l, h1, h2, h3, _, _⟩ := natural_digits m
    obtain ⟨a, l1, rfl⟩ := List.exists_cons_of_ne_nil h3
    have hs : (toString (Int.ofNat m)).data = a :: l1 := h1
    have ha : a.isDigit = true := h2 a (List.mem_cons_self _ _)
    refine ⟨a, l1 ++ rest, by rw [hs]; rfl, ?_, ?_, ?_, ?_, ?_⟩ <;>
      · intro h; rw [h] at ha; exact absurd ha (by decide)
  | negSucc m =>
    refine ⟨'-', (toString (m + 1)).data ++ rest, ?_, by decide, by decide, by decide, by decide,
      by decide⟩
    show ("-" ++ toString (m + 1)).data ++ rest = _
    simp

theorem field_of_startsValue {α β : Type} (read : List Char → Option (β × List Char))
    (set : β → α) (onNull : α) {cs : List Char} (h : startsValue cs) :
    field read set onNull cs = (read cs).map (fun r => (set r.1, r.2)) := by
  unfold field
  rw [keyword_null_startsValue h]

theorem field_string_quote {α : Type} (set : String → α) (onNull : α) (s : String)
    (rest : List Char) :
    field string set onNull (quoteChars s ++ rest) = some (set s, rest) := by
  rw [field_of_startsValue _ _ _ (startsValue_quote s rest), string_quote s rest]
  rfl

theorem field_number_toString {α : Type} (set : Int → α) (onNull : α) (n : Int)
    (rest : List Char) (hr : -(2 : Int) ^ 63 ≤ n ∧ n ≤ (2 : Int) ^ 63 - 1)
    (hrest : endsNumber rest) :
    field number set onNull ((toString n).data ++ rest) = some (set n, rest) := by
  rw [field_of_startsValue _ _ _ (startsValue_toString n rest)]
  have := number_toString n rest hr hrest
  simp only [String.toList] at this
  rw [this]
  rfl

theorem field_bool_data {α : Type} (set : Bool → α) (onNull : α) (b : Bool) (rest : List Char) :
    field bool set onNull ((if b then "true" else "false").data ++ rest) = some (set b, rest) := by
  cases b <;> simp [field, bool, keyword]

theorem marshalTask_data (t : Task) (rest : List Char) :
    (marshalTask t).data ++ rest = ' ' :: ' ' :: ' ' :: ' ' :: taskObject t rest := by
  have h1 : quoteChars "id" = "\"id\"".data := by decide
  have h2 : quoteChars "title" = "\"title\"".data := by decide
  have h3 : quoteChars "completed" = "\"completed\"".data := by decide
  have h4 : quoteChars "time" = "\"time\"".data := by decide
  simp only [taskObject, h1, h2, h3, h4]
  simp [marshalTask, lbrace, rbrace, quote_data]

theorem members_comma {α : Type} (member : α → String → List Char → Option (α × List Char))
    (fuel : Nat) (a a1 : α) (key : String) (V W : List Char)
    (hV : startsValue V) (hm : member a key V = some (a1, ',' :: W)) :
    members member (fuel + 1) a (quoteChars key ++ ':' :: ' ' :: V) =
      members member fuel a1 (skipWs W) := by
  have hs := string_quote key (':' :: ' ' :: V)
  simp [members, hs, skipWs, skipWs_startsValue hV, hm]

theorem members_last {α : Type} (member : α → String → List Char → Option (α × List Char))
    (fuel : Nat) (a a1 : α) (key : String) (V cs3 rest : List Char)
    (hV : startsValue V) (hm : member a key V = some (a1, cs3))
    (hend : skipWs cs3 = rbrace :: rest) :
    members member (fuel + 1) a (quoteChars key ++ ':' :: ' ' :: V) = some (a1, rest) := by
  have hs := string_quote key (':' :: ' ' :: V)
  have hne : rbrace ≠ ',' := by decide
  simp [members, hs, skipWs, skipWs_startsValue hV, hm, hend, hne]

theorem skipWs_blank (ch : Char) (cs : List Char)
    (h : ch = ' ' ∨ ch = '\t' ∨ ch = '\n' ∨ ch = '\r') : skipWs (ch :: cs) = skipWs cs := by
  simp [skipWs, h]

theorem skipWs_indent6 (cs : List Char) (h : startsValue cs) :
    skipWs ('\n' :: ' ' :: ' ' :: ' ' :: ' ' :: ' ' :: ' ' :: cs) = cs := by
  simp [skipWs, skipWs_startsValue h]

theorem endsNumber_comma (W : List Char) : endsNumber (',' :: W) := by
  intro ch h
  simp only [List.head?_cons, Option.some.injEq] at h
  subst h
  decide

theorem endsNumber_newline (W : List Char) : endsNumber ('\n' :: W) := by
  intro ch h
  simp only [List.head?_cons, Option.some.injEq] at h
  subst h
  decide

theorem object_open {α : Type} (member : α → String → List Char → Option (α × List Char))
    (fuel : Nat) (a : α) (key : String) (X : List Char) :
    object member fuel a
        (lbrace :: '\n' :: ' ' :: ' ' :: ' ' :: ' ' :: ' ' :: ' ' :: (quoteChars key ++ X)) =
      members member fuel a (quoteChars key ++ X) := by
  have hne : dquote ≠ rbrace := by decide
  unfold object
  simp only [if_true, skipWs_indent6 _ (startsValue_quote key X)]
  simp only [quoteChars, List.cons_append, hne, if_false]

theorem startsValue_bool (b : Bool) (rest : List Char) :
    startsValue ((if b then "true" else "false").data ++ rest) := by
  cases b
  · exact ⟨'f', _, rfl, by decide, by decide, by decide, by decide, by decide⟩
  · exact ⟨'t', _, rfl, by decide, by decide, by decide, by decide, by decide⟩

theorem object_taskObject (fuel : Nat) (t : Task) (rest : List Char) (hf : 4 ≤ fuel)
    (hr : fitsInt t.ID) : object taskMember fuel zeroTask (taskObject t rest) = some (t, rest) := by
  obtain ⟨f, rfl⟩ : ∃ f, fuel = f + 4 := ⟨fuel - 4, by omega⟩
  unfold taskObject
  rw [object_open]
  rw [members_comma taskMember (f + 3) zeroTask { zeroTask with ID := t.ID } "id" _ _
    (startsValue_toString _ _)
    (by
      simp only [taskMember, if_true]
      exact field_number_toString _ _ _ _ hr (endsNumber_comma _))]
  rw [skipWs_indent6 _ (startsValue_quote _ _)]
  rw [members_comma taskMember (f + 2) _
    { ID := t.ID, Title := t.Title, Completed := false, Time := zeroTime } "title" _ _
    (startsValue_quote _ _)
    (by
      have h1 : ¬ ("title" = "id") := by decide
      simp only [taskMember, h1, if_false, if_true]
      exact field_string_quote _ _ _ _)]
  rw [skipWs_indent6 _ (startsValue_quote _ _)]
  rw [members_comma taskMember (f + 1) _
    { ID := t.ID, Title := t.Title, Completed := t.Completed, Time := zeroTime } "completed" _ _
    (startsValue_bool _ _)
    (by
      have h1 : ¬ ("completed" = "id") := by decide
      have h2 : ¬ ("completed" = "title") := by decide
      simp only [taskMember, h1, h2, if_false, if_true]
      exact field_bool_data _ _ _ _)]
  rw [skipWs_indent6 _ (startsValue_quote _ _)]
  rw [members_last taskMember f _
    { ID := t.ID, Title := t.Title, Completed := t.Completed, Time := t.Time } "time" _ _ rest
    (startsValue_quote _ _)
    (by
      have h1 : ¬ ("time" = "id") := by decide
      have h2 : ¬ ("time" = "title") := by decide
      have h3 : ¬ ("time" = "completed") := by decide
      simp only [taskMember, h1, h2, h3, if_false, if_true]
      exact field_string_quote _ _ _ _)
    (by simp [skipWs, rbrace])]

theorem startsValue_taskObject (t : Task) (rest : List Char) :
    startsValue (taskObject t rest) :=
  ⟨lbrace, _, rfl, by decide, by decide, by decide, by decide, by decide⟩

theorem skipWs_indent4 (cs : List Char) (h : startsValue cs) :
    skipWs ('\n' :: ' ' :: ' ' :: ' ' :: ' ' :: cs) = cs := by
  simp [skipWs, skipWs_startsValue h]

theorem skipWs_indent2 (cs : List Char) (h : startsValue cs) :
    skipWs ('\n' :: ' ' :: ' ' :: cs) = cs := by
  simp [skipWs, skipWs_startsValue h]

theorem skipWs_arrayClose (rest : List Char) : skipWs (arrayClose rest) = ']' :: rest := by
  simp [arrayClose, skipWs]

theorem marshalElements_cons_cons (t t2 : Task) (r : List Task) :
    marshalElements (t :: t2 :: r) = marshalTask t ++ ",\n" ++ marshalElements (t2 :: r) := rfl

theorem elements_marshalElements (fuel : Nat) (hf : 4 ≤ fuel) (ts : List Task) (hts : ts ≠ [])
    (hid : ∀ t ∈ ts, fitsInt t.ID) (n : Nat) (hn : ts.length ≤ n) (rest : List Char) :
    elements fuel n (skipWs ('\n' :: ((marshalElements ts).data ++ arrayClose rest))) =
      some (ts, rest) := by
  induction ts generalizing n with
  | nil => exact absurd rfl hts
  | cons t r ih =>
    obtain ⟨m, rfl⟩ : ∃ m, n = m + 1 := ⟨n - 1, by simp at hn; omega⟩
    have ht := hid t (List.mem_cons_self _ _)
    cases r with
    | nil =>
      have hdoc : (marshalElements [t]).data ++ arrayClose rest =
          ' ' :: ' ' :: ' ' :: ' ' :: taskObject t (arrayClose rest) := marshalTask_data t _
      rw [hdoc, skipWs_indent4 _ (startsValue_taskObject _ _)]
      simp only [elements, object_taskObject fuel t _ hf ht, skipWs_arrayClose]
      simp
    | cons t2 r2 =>
      have hdoc : (marshalElements (t :: t2 :: r2)).data ++ arrayClose rest =
          ' ' :: ' ' :: ' ' :: ' ' :: taskObject t
            (',' :: '\n' :: ((marshalElements (t2 :: r2)).data ++ arrayClose rest)) := by
        rw [marshalElements_cons_cons, String.data_append, String.data_append, List.append_assoc,
          List.append_assoc, marshalTask_data]
        rfl
      rw [hdoc, skipWs_indent4 _ (startsValue_taskObject _ _)]
      have hrec := ih (by simp) (fun u hu => hid u (List.mem_cons_of_mem _ hu)) m
        (by simp at hn ⊢; omega)
      simp only [elements, object_taskObject fuel t _ hf ht]
      have hnl : skipWs ('\n' :: ((marshalElements (t2 :: r2)).data ++ arrayClose rest)) =
          skipWs ((marshalElements (t2 :: r2)).data ++ arrayClose rest) :=
        skipWs_blank _ _ (by simp)
      rw [hnl] at hrec
      simp [skipWs, hrec]

theorem skipWs_marshalElements (ts : List Task) (hts : ts ≠ []) (Y : List Char) :
    ∃ t X, skipWs ('\n' :: ((marshalElements ts).data ++ Y)) = taskObject t X := by
  cases ts with
  | nil => exact absurd rfl hts
  | cons t r =>
    cases r with
    | nil =>
      refine ⟨t, Y, ?_⟩
      have hdoc : (marshalElements [t]).data ++ Y = ' ' :: ' ' :: ' ' :: ' ' :: taskObject t Y :=
        marshalTask_data t _
      rw [hdoc, skipWs_indent4 _ (startsValue_taskObject _ _)]
    | cons t2 r2 =>
      refine ⟨t, ',' :: '\n' :: ((marshalElements (t2 :: r2)).data ++ Y), ?_⟩
      have hdoc : (marshalElements (t :: t2 :: r2)).data ++ Y =
          ' ' :: ' ' :: ' ' :: ' ' :: taskObject t
            (',' :: '\n' :: ((marshalElements (t2 :: r2)).data ++ Y)) := by
        rw [marshalElements_cons_cons, String.data_append, String.data_append, List.append_assoc,
          List.append_assoc, marshalTask_data]
        rfl
      rw [hdoc, skipWs_indent4 _ (startsValue_taskObject _ _)]

theorem marshalTasks_data (ts : List Task) (rest : List Char) :
    (marshalTasks ts).data ++ rest =
      if ts = [] then '[' :: ']' :: rest
      else '[' :: '\n' :: ((marshalElements ts).data ++ arrayClose rest) := by
  cases ts with
  | nil => simp [marshalTasks]
  | cons t r => simp [marshalTasks, arrayClose]

theorem startsValue_marshalTasks (ts : List Task) (rest : List Char) :
    startsValue ((marshalTasks ts).data ++ rest) := by
  rw [marshalTasks_data]
  split_ifs <;> exact ⟨'[', _, rfl, by decide, by decide, by decide, by decide, by decide⟩

theorem array_marshalTasks (fuel : Nat) (hf : 4 ≤ fuel) (ts : List Task)
    (hid : ∀ t ∈ ts, fitsInt t.ID) (hn : ts.length ≤ fuel) (rest : List Char) :
    array fuel ((marshalTasks ts).data ++ rest) = some (ts, rest) := by
  rw [marshalTasks_data]
  by_cases hts : ts = []
  · subst hts
    simp [array, skipWs]
  · rw [if_neg hts]
    obtain ⟨t, X, hsk⟩ := skipWs_marshalElements ts hts (arrayClose rest)
    have hel := elements_marshalElements fuel hf ts hts hid fuel hn rest
    rw [hsk] at hel
    have hne : lbrace ≠ ']' := by decide
    unfold array
    simp only [if_true, hsk]
    unfold taskObject at hel ⊢
    simp only [hne, if_false]
    exact hel

theorem marshalTask_length (t : Task) : 1 ≤ (marshalTask t).data.length := by
  have := congrArg List.length (marshalTask_data t [])
  simp only [List.append_nil, List.length_cons] at this
  omega

theorem marshalElements_length (ts : List Task) : ts.length ≤ (marshalElements ts).data.length := by
  induction ts with
  | nil => simp
  | cons t r ih =>
    have ht := marshalTask_length t
    cases r with
    | nil => simpa [marshalElements] using ht
    | cons t2 r2 =>
      rw [marshalElements_cons_cons, String.data_append, String.data_append]
      simp only [List.length_append, List.length_cons] at ih ⊢
      omega

theorem MarshalIndent_data (tl : TodoList) :
    ∃ d, MarshalIndent tl = Except.ok d ∧ d.data = storeObject tl := by
  refine ⟨_, rfl, ?_⟩
  have h1 : quoteChars "tasks" = "\"tasks\"".data := by decide
  have h2 : quoteChars "filePath" = "\"filePath\"".data := by decide
  have h3 : quoteChars "nextId" = "\"nextId\"".data := by decide
  simp only [storeObject, h1, h2, h3]
  simp [lbrace, rbrace, quote_data]

theorem storeObject_length (tl : TodoList) :
    4 ≤ (storeObject tl).length ∧ tl.Tasks.length ≤ (storeObject tl).length := by
  have h := marshalElements_length tl.Tasks
  have h2 := congrArg List.length (marshalTasks_data tl.Tasks [])
  simp only [List.append_nil] at h2
  simp only [storeObject, List.length_cons, List.length_append, h2]
  constructor
  · omega
  · split_ifs with he
    · simp [he]
    · simp only [List.length_cons, List.length_append]
      omega

theorem object_open2 {α : Type} (member : α → String → List Char → Option (α × List Char))
    (fuel : Nat) (a : α) (key : String) (X : List Char) :
    object member fuel a (lbrace :: '\n' :: ' ' :: ' ' :: (quoteChars key ++ X)) =
      members member fuel a (quoteChars key ++ X) := by
  have hne : dquote ≠ rbrace := by decide
  unfold object
  simp only [if_true, skipWs_indent2 _ (startsValue_quote key X)]
  simp only [quoteChars, List.cons_append, hne, if_false]

theorem object_storeObject (fuel : Nat) (tl tl0 : TodoList) (hf : 4 ≤ fuel)
    (hn : tl.Tasks.length ≤ fuel) (hfit : fitsStore tl) :
    object (storeMember fuel) fuel tl0 (storeObject tl) = some (tl, []) := by
  obtain ⟨f, rfl⟩ : ∃ f, fuel = f + 3 := ⟨fuel - 3, by omega⟩
  unfold storeObject
  rw [object_open2]
  rw [members_comma (storeMember (f + 3)) (f + 2) tl0 { tl0 with Tasks := tl.Tasks } "tasks" _ _
    (startsValue_marshalTasks _ _)
    (by
      simp only [storeMember, if_true]
      rw [field_of_startsValue _ _ _ (startsValue_marshalTasks _ _),
        array_marshalTasks (f + 3) hf tl.Tasks hfit.2 hn]
      rfl)]
  rw [skipWs_indent2 _ (startsValue_quote _ _)]
  rw [members_comma (storeMember (f + 3)) (f + 1) _
    { Tasks := tl.Tasks, FilePath := tl.FilePath, NextId := tl0.NextId } "filePath" _ _
    (startsValue_quote _ _)
    (by
      have h1 : ¬ ("filePath" = "tasks") := by decide
      simp only [storeMember, h1, if_false, if_true]
      exact field_string_quote _ _ _ _)]
  rw [skipWs_indent2 _ (startsValue_quote _ _)]
  rw [members_last (storeMember (f + 3)) f _
    { Tasks := tl.Tasks, FilePath := tl.FilePath, NextId := tl.NextId } "nextId" _ _ []
    (startsValue_toString _ _)
    (by
      have h1 : ¬ ("nextId" = "tasks") := by decide
      have h2 : ¬ ("nextId" = "filePath") := by decide
      simp only [storeMember, h1, h2, if_false, if_true]
      exact field_number_toString _ _ _ _ hfit.1 (endsNumber_newline _))
    (by simp [skipWs, rbrace])]

theorem Unmarshal_MarshalIndent (tl tl0 : TodoList) (hfit : fitsStore tl) :
    ∃ d, MarshalIndent tl = Except.ok d ∧ d.utf8ByteSize ≠ 0 ∧ Unmarshal d tl0 = (tl, none) := by
  obtain ⟨d, hd, hdata⟩ := MarshalIndent_data tl
  have hlen := storeObject_length tl
  refine ⟨d, hd, ?_, ?_⟩
  · intro h0
    have hd0 : d = "" := by
      cases d with
      | mk l =>
        cases l with
        | nil => rfl
        | cons c r =>
          simp only [String.utf8ByteSize, String.utf8ByteSize.go] at h0
          have := Char.utf8Size_pos c
          omega
    rw [hd0] at hdata
    rw [← hdata] at hlen
    simp at hlen
  · have hstart : startsValue (storeObject tl) :=
      ⟨lbrace, _, rfl, by decide, by decide, by decide, by decide, by decide⟩
    have hfuel : d.length = (storeObject tl).length := by
      rw [← hdata]; rfl
    unfold Unmarshal
    simp only [String.toList, hdata, skipWs_startsValue hstart, field_of_startsValue _ _ _ hstart,
      hfuel, object_storeObject _ tl tl0 hlen.1 hlen.2 hfit]
    simp [skipWs]

end Json

/-! ## Persistence -/

theorem Save_no_error_iff (c : Codec) (fs : FS) (tl : TodoList) :
    (Save c fs tl).2 = none ↔
      (∃ d, c.MarshalIndent tl = Except.ok d) ∧ fs.writable tl.FilePath = true := by
  unfold Save
  cases hm : c.MarshalIndent tl with
  | error e => simp
  | ok d =>
    cases hw : fs.writable tl.FilePath <;> simp [WriteFile, hw]

theorem Save_at_FilePath (c : Codec) (fs : FS) (tl : TodoList) (d : String)
    (h : c.MarshalIndent tl = Except.ok d) (hw : fs.writable tl.FilePath = true) :
    (Save c fs tl).1.file tl.FilePath = some d ∧ (Save c fs tl).2 = none := by
  simp [Save, h, WriteFile, hw]

theorem Save_of_no_error (c : Codec) (fs : FS) (tl : TodoList) (h : (Save c fs tl).2 = none) :
    ∃ d, c.MarshalIndent tl = Except.ok d ∧ (Save c fs tl).1.file tl.FilePath = some d := by
  obtain ⟨⟨d, hd⟩, hw⟩ := (Save_no_error_iff c fs tl).mp h
  exact ⟨d, hd, (Save_at_FilePath c fs tl d hd hw).1⟩

theorem Save_elsewhere (c : Codec) (fs : FS) (tl : TodoList) (q : String)
    (h : q ≠ tl.FilePath) : (Save c fs tl).1.file q = fs.file q := by
  unfold Save
  cases c.MarshalIndent tl with
  | error e => rfl
  | ok d =>
    cases hw : fs.writable tl.FilePath <;> simp [WriteFile, hw, h]

theorem Save_unwritable (c : Codec) (fs : FS) (tl : TodoList)
    (hw : fs.writable tl.FilePath = false) : (Save c fs tl).1 = fs := by
  unfold Save
  cases c.MarshalIndent tl with
  | error e => rfl
  | ok d => simp [WriteFile, hw]

theorem step_fs_elsewhere (c : Codec) (w : World) (op : Op) (q : String)
    (h : q ≠ w.tl.FilePath) : (step c w op).1.fs.file q = w.fs.file q := by
  cases op with
  | add title now =>
    simp only [step, AddTask]
    exact Save_elsewhere c w.fs _ q h
  | list b => rfl
  | complete id =>
    simp only [step, CompleteTask]
    cases firstIndex w.tl.Tasks id with
    | none => rfl
    | some i => exact Save_elsewhere c w.fs _ q h
  | delete id =>
    simp only [step, DeleteTask]
    cases firstIndex w.tl.Tasks id with
    | none => rfl
    | some i => exact Save_elsewhere c w.fs _ q h

theorem run_fs_elsewhere (c : Codec) (w : World) (ops : List Op) (q : String)
    (h : q ≠ w.tl.FilePath) : (run c w ops).1.fs.file q = w.fs.file q := by
  induction ops generalizing w with
  | nil => rfl
  | cons op ops ih =>
    simp only [run]
    rw [ih _ (by rw [step_FilePath]; exact h), step_fs_elsewhere c w op q h]

theorem Save_then_NewTodoList_of_codec (c : Codec) (fs : FS) (s : TodoList) (d : String)
    (hwr : fs.writable s.FilePath = true)
    (hw : c.MarshalIndent s = Except.ok d) (hne : d.utf8ByteSize ≠ 0)
    (hr : c.Unmarshal d (emptyTodoList s.FilePath) = (s, none)) :
    NewTodoList c (Save c fs s).1 s.FilePath = s ∧
    (Save c fs s).2 = none ∧
    (Load c (Save c fs s).1 (emptyTodoList s.FilePath)).2 = none := by
  have hfile := (Save_at_FilePath c fs s d hw hwr).1
  have hload : Load c (Save c fs s).1 (emptyTodoList s.FilePath) = (s, none) := by
    have hp : (emptyTodoList s.FilePath).FilePath = s.FilePath := rfl
    simp only [Load, hp, Stat, ReadFile, hfile, IsNotExist]
    simp [hne, hr]
  exact ⟨by simp [NewTodoList, hload], (Save_at_FilePath c fs s d hw hwr).2, by simp [hload]⟩

/-- C5.  Round trip through the file, for a `Save` that writes (the file at
`s.FilePath` can be opened for writing).  With the JSON codec: for every store
`s` (its integers being Go `int`s), whatever the file system held, `Save`
followed by `NewTodoList` on `s.FilePath` gives back `s` itself (tasks, file
path and next id), and neither `Save` nor `Load` reports an error.  With any
codec: the same holds whenever the codec writes `s` as a non-empty document
and reads that document back, into the fresh store for the path, as `s`. -/
theorem Save_then_NewTodoList_roundtrip (fs : FS) (s : TodoList) (hfit : Json.fitsStore s)
    (hwr : fs.writable s.FilePath = true) :
    (NewTodoList jsonCodec (Save jsonCodec fs s).1 s.FilePath = s ∧
      (Save jsonCodec fs s).2 = none ∧
      (Load jsonCodec (Save jsonCodec fs s).1 (emptyTodoList s.FilePath)).2 = none) ∧
    (∀ (c : Codec) (d : String), c.MarshalIndent s = Except.ok d → d.utf8ByteSize ≠ 0 →
      c.Unmarshal d (emptyTodoList s.FilePath) = (s, none) →
      NewTodoList c (Save c fs s).1 s.FilePath = s) := by
  constructor
  · obtain ⟨d, hw, hne, hr⟩ := Json.Unmarshal_MarshalIndent s (emptyTodoList s.FilePath) hfit
    exact Save_then_NewTodoList_of_codec jsonCodec fs s d hwr hw hne hr
  · intro c d hw hne hr
    exact (Save_then_NewTodoList_of_codec c fs s d hwr hw hne hr).1

/-- C8, as amended.  `NewTodoList(p)` has `FilePath = p` when the file at `p` is
absent, has zero bytes, or decodes into a store whose `filePath` is `p`; and
whatever `FilePath` the store has after `NewTodoList`, it keeps it through any
sequence of `AddTask`, `ListTasks`, `CompleteTask` and `DeleteTask` calls, and
no file other than the one at that path is written. -/
theorem FilePath_fixed_after_NewTodoList (c : Codec) (fs : FS) (p : String) :
    ((fs.file p = none ∨ fs.file p = some "" ∨
        ∃ d, fs.file p = some d ∧ (c.Unmarshal d (emptyTodoList p)).1.FilePath = p) →
      (NewTodoList c fs p).FilePath = p) ∧
    (∀ ops : List Op,
      (run c { fs := fs, tl := NewTodoList c fs p } ops).1.tl.FilePath =
        (NewTodoList c fs p).FilePath ∧
      ∀ q, q ≠ (NewTodoList c fs p).FilePath →
        (run c { fs := fs, tl := NewTodoList c fs p } ops).1.fs.file q = fs.file q) := by
  constructor
  · intro h
    rcases h with h | h | ⟨d, h, hd⟩
    · simp only [NewTodoList, Load_absent_or_empty c fs (emptyTodoList p) (Or.inl h)]
      rfl
    · simp only [NewTodoList, Load_absent_or_empty c fs (emptyTodoList p) (Or.inr h)]
      rfl
    · simp only [NewTodoList, Load, emptyTodoList, Stat, ReadFile, h, IsNotExist]
      by_cases hz : d.utf8ByteSize = 0
      · simp [hz]
      · simpa [hz, emptyTodoList] using hd
  · intro ops
    exact ⟨run_FilePath c _ ops, fun q hq => run_fs_elsewhere c _ ops q hq⟩

/-- C9, as amended.  After an `AddTask`, and after a `CompleteTask` or
`DeleteTask` that returns true, whose `Save` reports no error, the file at the
store's `FilePath` holds the serialization of the store the call leaves
(whatever it held before).  `Save` reports no error exactly when the codec
gives a document for the store and the file at `FilePath` can be opened for
writing; the JSON codec gives a document for every store. -/
theorem mutation_writes_full_snapshot (c : Codec) (fs : FS) (tl : TodoList)
    (title : String) (now : Time) (id : Int) :
    ((Save c fs (AddTask c fs tl title now).2.1).2 = none →
      ∃ d, c.MarshalIndent (AddTask c fs tl title now).2.1 = Except.ok d ∧
        (AddTask c fs tl title now).1.file (AddTask c fs tl title now).2.1.FilePath = some d) ∧
    ((CompleteTask c fs tl id).2.2 = true →
      (Save c fs (CompleteTask c fs tl id).2.1).2 = none →
      ∃ d, c.MarshalIndent (CompleteTask c fs tl id).2.1 = Except.ok d ∧
        (CompleteTask c fs tl id).1.file (CompleteTask c fs tl id).2.1.FilePath = some d) ∧
    ((DeleteTask c fs tl id).2.2 = true →
      (Save c fs (DeleteTask c fs tl id).2.1).2 = none →
      ∃ d, c.MarshalIndent (DeleteTask c fs tl id).2.1 = Except.ok d ∧
        (DeleteTask c fs tl id).1.file (DeleteTask c fs tl id).2.1.FilePath = some d) ∧
    (∀ s : TodoList, (Save c fs s).2 = none ↔
      (∃ d, c.MarshalIndent s = Except.ok d) ∧ fs.writable s.FilePath = true) ∧
    (∀ s : TodoList, ∃ d, jsonCodec.MarshalIndent s = Except.ok d) := by
  refine ⟨?_, ?_, ?_, fun s => Save_no_error_iff c fs s, fun s => ⟨_, rfl⟩⟩
  · intro h
    exact Save_of_no_error c fs _ h
  · intro ht h
    unfold CompleteTask at ht h ⊢
    cases hi : firstIndex tl.Tasks id with
    | none => simp [hi] at ht
    | some i =>
      simp only [hi] at h ⊢
      exact Save_of_no_error c fs _ h
  · intro ht h
    unfold DeleteTask at ht h ⊢
    cases hi : firstIndex tl.Tasks id with
    | none => simp [hi] at ht
    | some i =>
      simp only [hi] at h ⊢
      exact Save_of_no_error c fs _ h

/-! ## The command dispatcher -/

theorem idCommand_isReturned (Args : List String) (fs : FS)
    (method : Int → FS × TodoList × Bool) (done : Int → String) (h : 3 ≤ Args.length) :
    (idCommand Args fs method done).isReturned = true := by
  obtain ⟨a, h2⟩ : ∃ a, Args[2]? = some a :=
    ⟨Args[2], List.getElem?_eq_getElem (by omega)⟩
  unfold idCommand
  rw [h2]
  dsimp only
  cases Atoi a with
  | error e => rfl
  | ok v =>
    dsimp only
    split <;> rfl

/-- C10.  `main` returns exactly when a command is given: with at least one
argument after the program name every `os.Args[1]` and `os.Args[2]` read is in
range and `main` returns; with the program name alone (or nothing at all) the
read of `os.Args[1]` is out of range, and with the program name alone the run
aborts at index 1 of length 1 having printed nothing and written nothing. -/
theorem main_returns_iff_command_given (c : Codec) (fs : FS) (now : Time) (Args : List String) :
    ((main c fs now Args).isReturned = true ↔ 2 ≤ Args.length) ∧
    (∀ prog : String, main c fs now [prog] = Outcome.indexPanic fs "" 1 1) := by
  refine ⟨?_, fun prog => rfl⟩
  constructor
  · intro h
    by_contra hlt
    have h1 : Args[1]? = none := List.getElem?_eq_none (by omega)
    simp [main, h1, Outcome.isReturned] at h
  · intro h
    obtain ⟨cmd, h1⟩ : ∃ a, Args[1]? = some a :=
      ⟨Args[1], List.getElem?_eq_getElem (by omega)⟩
    by_cases h3 : 3 ≤ Args.length
    · obtain ⟨a2, h2⟩ : ∃ a, Args[2]? = some a :=
        ⟨Args[2], List.getElem?_eq_getElem (by omega)⟩
      have hid := idCommand_isReturned Args fs
      simp only [main, h1, h2]
      split_ifs <;> first | rfl | exact hid _ _ h3
    · simp only [main, h1]
      split_ifs <;> first | rfl | omega

/-! ## The theorems at concrete inputs -/

/-- C5 at `milkStore`: the store is written as `milkDocument`, and loading the
file gives `milkStore` back. -/
theorem Save_then_NewTodoList_roundtrip_witness :
    Json.fitsStore milkStore ∧
    (Save jsonCodec noFile milkStore).1.file "./todo.json" = some milkDocument ∧
    NewTodoList jsonCodec (Save jsonCodec noFile milkStore).1 milkStore.FilePath = milkStore :=
  ⟨by decide, by decide!,
    (Save_then_NewTodoList_roundtrip noFile milkStore (by decide) (by decide)).1.1⟩

/-- C6 at `./todo.json`, once with no file and once with an empty file. -/
theorem NewTodoList_absent_or_empty_witness :
    NewTodoList jsonCodec noFile "./todo.json" =
      { Tasks := [], FilePath := "./todo.json", NextId := 1 } ∧
    NewTodoList jsonCodec (oneFile "./todo.json" "") "./todo.json" =
      { Tasks := [], FilePath := "./todo.json", NextId := 1 } :=
  ⟨(NewTodoList_absent_or_empty jsonCodec noFile "./todo.json" (Or.inl rfl)).2,
    (NewTodoList_absent_or_empty jsonCodec (oneFile "./todo.json" "") "./todo.json"
      (Or.inr (by decide!))).2⟩

/-- C8 as stated fails: with `foreignDocument` at `./todo.json`, the store
`NewTodoList("./todo.json")` returns has `FilePath = "elsewhere.json"`, and the
`Save` of the next `AddTask` creates `elsewhere.json` and leaves `./todo.json`
as it was. -/
theorem NewTodoList_FilePath_from_file :
    (NewTodoList jsonCodec (oneFile "./todo.json" foreignDocument) "./todo.json").FilePath
      = "elsewhere.json" ∧
    (NewTodoList jsonCodec (oneFile "./todo.json" foreignDocument) "./todo.json").FilePath
      ≠ "./todo.json" ∧
    (AddTask jsonCodec (oneFile "./todo.json" foreignDocument)
      (NewTodoList jsonCodec (oneFile "./todo.json" foreignDocument) "./todo.json")
      "buy milk" "2024-05-01T09:30:00Z").1.file "./todo.json" = some foreignDocument ∧
    (oneFile "./todo.json" foreignDocument).file "elsewhere.json" = none ∧
    (AddTask jsonCodec (oneFile "./todo.json" foreignDocument)
      (NewTodoList jsonCodec (oneFile "./todo.json" foreignDocument) "./todo.json")
      "buy milk" "2024-05-01T09:30:00Z").1.file "elsewhere.json" ≠ none := by
  decide!

/-- C8 as amended, at a file that `Save` wrote for `./todo.json`. -/
theorem FilePath_fixed_after_NewTodoList_witness :
    (NewTodoList jsonCodec (oneFile "./todo.json" milkDocument) "./todo.json").FilePath
      = "./todo.json" :=
  (FilePath_fixed_after_NewTodoList jsonCodec (oneFile "./todo.json" milkDocument)
    "./todo.json").1 (Or.inr (Or.inr ⟨milkDocument, by decide!, by decide!⟩))

/-- C9 as stated fails: with `strayDocument` at `./todo.json` and no directory
`nodir`, the loaded store has `FilePath = "nodir/x.json"`; `todo add x` returns
having printed its confirmation, the `Save` inside `AddTask` reports an error
that is dropped, and afterwards there is no file at `nodir/x.json` (and
`./todo.json` is as it was), although the store the call leaves has a
serialization.  The same holds for a `CompleteTask` that returns true. -/
theorem AddTask_unwritable_path_no_snapshot :
    (NewTodoList jsonCodec (noDirectory "./todo.json" strayDocument) "./todo.json").FilePath
      = "nodir/x.json" ∧
    (Save jsonCodec (noDirectory "./todo.json" strayDocument)
      (AddTask jsonCodec (noDirectory "./todo.json" strayDocument)
        (NewTodoList jsonCodec (noDirectory "./todo.json" strayDocument) "./todo.json")
        "x" "2024-05-01T09:30:00Z").2.1).2 = some (Error.cannotWrite "nodir/x.json") ∧
    (AddTask jsonCodec (noDirectory "./todo.json" strayDocument)
      (NewTodoList jsonCodec (noDirectory "./todo.json" strayDocument) "./todo.json")
      "x" "2024-05-01T09:30:00Z").2.1.FilePath = "nodir/x.json" ∧
    (AddTask jsonCodec (noDirectory "./todo.json" strayDocument)
      (NewTodoList jsonCodec (noDirectory "./todo.json" strayDocument) "./todo.json")
      "x" "2024-05-01T09:30:00Z").1.file "nodir/x.json" = none ∧
    (AddTask jsonCodec (noDirectory "./todo.json" strayDocument)
      (NewTodoList jsonCodec (noDirectory "./todo.json" strayDocument) "./todo.json")
      "x" "2024-05-01T09:30:00Z").1.file "./todo.json" = some strayDocument ∧
    (jsonCodec.MarshalIndent
      (AddTask jsonCodec (noDirectory "./todo.json" strayDocument)
        (NewTodoList jsonCodec (noDirectory "./todo.json" strayDocument) "./todo.json")
        "x" "2024-05-01T09:30:00Z").2.1).toOption ≠ none ∧
    (main jsonCodec (noDirectory "./todo.json" strayDocument) "2024-05-01T09:30:00Z"
      ["todo", "add", "x"]).stdout = "Added task x\n" ∧
    (main jsonCodec (noDirectory "./todo.json" strayDocument) "2024-05-01T09:30:00Z"
      ["todo", "add", "x"]).fs.file "nodir/x.json" = none ∧
    (CompleteTask jsonCodec (noDirectory "./todo.json" strayDocument)
      { twoTasks with FilePath := "nodir/x.json" } 2).2.2 = true ∧
    (CompleteTask jsonCodec (noDirectory "./todo.json" strayDocument)
      { twoTasks with FilePath := "nodir/x.json" } 2).1.file "nodir/x.json" = none := by
  decide!

/-- C9 as amended, at writable files: the first `AddTask` on the empty store
leaves `milkDocument` at `./todo.json`, and completing task 2 and deleting
task 1 of `twoTasks` each leave the serialization of the resulting store. -/
theorem mutation_writes_full_snapshot_witness :
    (∃ d, jsonCodec.MarshalIndent (AddTask jsonCodec noFile (emptyTodoList "./todo.json")
          "buy milk" "2024-05-01T09:30:00Z").2.1 = Except.ok d ∧
      (AddTask jsonCodec noFile (emptyTodoList "./todo.json") "buy milk"
        "2024-05-01T09:30:00Z").1.file
        (AddTask jsonCodec noFile (emptyTodoList "./todo.json") "buy milk"
          "2024-05-01T09:30:00Z").2.1.FilePath = some d) ∧
    (∃ d, jsonCodec.MarshalIndent (CompleteTask jsonCodec noFile twoTasks 2).2.1 = Except.ok d ∧
      (CompleteTask jsonCodec noFile twoTasks 2).1.file
        (CompleteTask jsonCodec noFile twoTasks 2).2.1.FilePath = some d) ∧
    (∃ d, jsonCodec.MarshalIndent (DeleteTask jsonCodec noFile twoTasks 1).2.1 = Except.ok d ∧
      (DeleteTask jsonCodec noFile twoTasks 1).1.file
        (DeleteTask jsonCodec noFile twoTasks 1).2.1.FilePath = some d) ∧
    (AddTask jsonCodec noFile (emptyTodoList "./todo.json") "buy milk"
      "2024-05-01T09:30:00Z").1.file "./todo.json" = some milkDocument :=
  ⟨(mutation_writes_full_snapshot jsonCodec noFile (emptyTodoList "./todo.json") "buy milk"
      "2024-05-01T09:30:00Z" 0).1 (by decide!),
    (mutation_writes_full_snapshot jsonCodec noFile twoTasks "" "" 2).2.1
      (by decide) (by decide!),
    (mutation_writes_full_snapshot jsonCodec noFile twoTasks "" "" 1).2.2.1
      (by decide) (by decide!),
    by decide!⟩

/-- C2 at `twoTasks`: deleting id 1 leaves the task with id 2, and deleting an
id no task has returns false. -/
theorem DeleteTask_removes_first_match_witness :
    ((DeleteTask jsonCodec noFile twoTasks 1).2.2 = true ∧
      ∃ pre t post, twoTasks.Tasks = pre ++ t :: post ∧ t.ID = 1 ∧ (∀ x ∈ pre, x.ID ≠ 1) ∧
        (DeleteTask jsonCodec noFile twoTasks 1).2.1.Tasks = pre ++ post) ∧
    ((DeleteTask jsonCodec noFile twoTasks 7).2.2 = false ∧
      (DeleteTask jsonCodec noFile twoTasks 7).2.1.Tasks = twoTasks.Tasks) ∧
    (DeleteTask jsonCodec noFile twoTasks 1).2.1.Tasks =
      [{ ID := 2, Title := "walk dog", Completed := false, Time := "2024-05-01T09:31:00Z" }] :=
  ⟨(DeleteTask_removes_first_match jsonCodec noFile twoTasks 1).1
      ⟨_, List.mem_cons_self _ _, rfl⟩,
    (DeleteTask_removes_first_match jsonCodec noFile twoTasks 7).2.1 (by decide),
    by decide⟩

/-- C3 at `twoTasks`: completing id 2 sets its flag and nothing else, and
completing an id no task has returns false. -/
theorem CompleteTask_sets_only_completed_witness :
    ((CompleteTask jsonCodec noFile twoTasks 7).2.2 = false ∧
      (CompleteTask jsonCodec noFile twoTasks 7).2.1.Tasks = twoTasks.Tasks) ∧
    (CompleteTask jsonCodec noFile twoTasks 2).2.2 = true ∧
    (CompleteTask jsonCodec noFile twoTasks 2).2.1.Tasks =
      [{ ID := 1, Title := "buy milk", Completed := true, Time := "2024-05-01T09:30:00Z" },
        { ID := 2, Title := "walk dog", Completed := true, Time := "2024-05-01T09:31:00Z" }] :=
  ⟨(CompleteTask_sets_only_completed jsonCodec noFile twoTasks 7).1 (by decide),
    ((CompleteTask_sets_only_completed jsonCodec noFile twoTasks 2).2.1
      ⟨_, List.mem_cons_of_mem _ (List.mem_cons_self _ _), rfl⟩).1,
    by decide⟩

/-- The scenario of section 8 of the specification, call by call. -/
theorem scenario_replies :
    (run jsonCodec { fs := noFile, tl := emptyTodoList "./todo.json" } scenario).2 =
      [Reply.task ⟨1, "buy milk", false, "2024-05-01T09:30:00Z"⟩,
        Reply.task ⟨2, "walk dog", false, "2024-05-01T09:31:00Z"⟩,
        Reply.tasks [⟨1, "buy milk", false, "2024-05-01T09:30:00Z"⟩,
          ⟨2, "walk dog", false, "2024-05-01T09:31:00Z"⟩],
        Reply.flag true,
        Reply.tasks [⟨2, "walk dog", false, "2024-05-01T09:31:00Z"⟩],
        Reply.tasks [⟨1, "buy milk", true, "2024-05-01T09:30:00Z"⟩,
          ⟨2, "walk dog", false, "2024-05-01T09:31:00Z"⟩],
        Reply.flag true,
        Reply.tasks [⟨2, "walk dog", false, "2024-05-01T09:31:00Z"⟩],
        Reply.flag false] := by
  decide

end Todo
